import Mathlib

/-
Verification of the news-scraping pipeline (NYTimes + Guardian scrapers).

Shallow embedding of `web_scraping_pt1.py` (namespace `NYT`) and
`web_scraping_guardian.py` (namespace `Guardian`): the deduplicators, the
multi-query merge pass, the pagination pass, the month-by-month backfill
driver, and the module-level combine step.  Network interaction is
abstracted as an oracle (one per call site); side effects that the claims
talk about (HTTP requests, sleeps) are recorded as an explicit event
trace.  Publication timestamps are modelled as `Nat` (the code's
`pd.to_datetime` ordering), file contents as lists of rows, and the
per-month output directory as a map from `(year, month)` to an optional
file body.
-/

namespace NewsScrape

def defaultStr : String := ""

/-- A raw NYTimes API document (`response.docs` element).  `web_url` is
`Option String`: `doc.get('web_url')` yields `None` when the field is
absent; Python truthiness treats both `None` and `""` as false. -/
structure RawDoc where
  web_url : Option String
  headline : String
  pub_date : Nat
  deriving DecidableEq, Repr

/-- A normalized NYTimes row as built by `parse_articles` (only the fields
the claims mention). -/
structure Article where
  headline : String
  pub_date : Nat
  web_url : String
  deriving DecidableEq, Repr

/-- A raw Guardian API document (`response.results` element). -/
structure GRawDoc where
  id : Option String
  webTitle : String
  webPublicationDate : Nat
  deriving DecidableEq, Repr

/-- A normalized Guardian row as built by `parse_guardian_articles`. -/
structure GArticle where
  headline : String
  pub_date : Nat
  article_id : String
  deriving DecidableEq, Repr

/-- Python truthiness of an optional string: `None` and `""` are falsy. -/
def truthy : Option String → Bool
  | none => false
  | some s => !(s == "")

/-- Inner recursion of `drop_duplicates(subset=[key], keep='first')`:
keep a row iff its key was not seen among earlier rows. -/
def dropDupAux (key : α → String) : List String → List α → List α
  | _, [] => []
  | seen, a :: rest =>
    if key a ∈ seen then dropDupAux key seen rest
    else a :: dropDupAux key (key a :: seen) rest

/-- Models `pandas.DataFrame.drop_duplicates(subset=[key], keep='first')` on a
list of rows. -/
def drop_duplicates (key : α → String) (l : List α) : List α :=
  dropDupAux key [] l

/-- The seen-set accumulation loop shared by both scripts' multi-query
merge passes (`for doc in docs: url = doc.get(k); if url and url not in
seen: all.append(doc); seen.add(url)`), threading the accumulator and the
seen set. -/
def appendSeen (getKey : α → Option String) :
    List α × List String → List α → List α × List String
  | st, [] => st
  | (acc, seen), d :: rest =>
    match getKey d with
    | none => appendSeen getKey (acc, seen) rest
    | some u =>
      if u = "" ∨ u ∈ seen then appendSeen getKey (acc, seen) rest
      else appendSeen getKey (acc ++ [d], u :: seen) rest

/-- Observable side effects of the fetch layer: an HTTP request (indexed
by query number in the merge pass, by page number in the pagination
pass) or a `time.sleep(secs)`. -/
inductive Event where
  | request (idx : Nat)
  | sleep (secs : Nat)
  deriving DecidableEq, Repr

/-- Outcome of one `requests.get` against the NYTimes endpoint: a
transport-level exception, or a response with a status code and the
parsed `response.docs` array (empty when the body lacks the expected
keys). -/
inductive NYTHttp where
  | exn
  | resp (status : Nat) (docs : List RawDoc)
  deriving DecidableEq, Repr

/-- Outcome of one `requests.get` against the Guardian endpoint:
exception, or status plus the body's pagination metadata
(`response.pages`, `response.currentPage`, with the code's `.get(_, 0)`
defaults folded in) and `response.results`. -/
inductive GHttp where
  | exn
  | resp (status : Nat) (pages currentPage : Nat) (results : List GRawDoc)
  deriving DecidableEq, Repr

/-- The request indices occurring in an event trace, in order. -/
def requestedIdxs (evs : List Event) : List Nat :=
  evs.filterMap fun e =>
    match e with
    | Event.request i => some i
    | Event.sleep _ => none

namespace NYT

/-- Events produced by iteration `i` of the NYT multi-query loop:
`time.sleep(2)` before every query but the first, the request itself,
and `time.sleep(60)` on HTTP 429. -/
def queryEvents (o : Nat → NYTHttp) (i : Nat) : List Event :=
  (if 0 < i then [Event.sleep 2] else []) ++ [Event.request i] ++
    (match o i with
     | NYTHttp.exn => []
     | NYTHttp.resp s _ => if s = 429 then [Event.sleep 60] else [])

/-- Data effect of iteration `i` of the NYT multi-query loop: only an
HTTP 200 response contributes documents, deduplicated against
`seen_urls` (429, other statuses, and exceptions all `continue`). -/
def mergeStep (o : Nat → NYTHttp) (st : List RawDoc × List String) (i : Nat) :
    List RawDoc × List String :=
  match o i with
  | NYTHttp.exn => st
  | NYTHttp.resp s docs =>
    if s = 200 then appendSeen (fun d => d.web_url) st docs else st

/-- Full event trace of `search_trump_covid_comprehensive` (5 queries). -/
def compEvents (o : Nat → NYTHttp) : List Event :=
  ((List.range 5).map (queryEvents o)).flatten

/-- The `all_docs` list accumulated by
`search_trump_covid_comprehensive`. -/
def compMerged (o : Nat → NYTHttp) : List RawDoc :=
  ((List.range 5).foldl (mergeStep o) ([], [])).1

/-- Function `search_trump_covid_comprehensive`: returns the merged document list
when non-empty, else `None` (`if all_docs: return {...}; return None`). -/
def search_trump_covid_comprehensive (o : Nat → NYTHttp) : Option (List RawDoc) :=
  if compMerged o = [] then none else some (compMerged o)

/-- Function `search_trump_covid_single` for one page: 429 sleeps 60s and returns
`None`; any other non-200 status or an exception returns `None`; 200
returns the body. -/
def search_trump_covid_single (o : Nat → NYTHttp) (page : Nat) :
    List Event × Option (List RawDoc) :=
  match o page with
  | NYTHttp.exn => ([Event.request page], none)
  | NYTHttp.resp s docs =>
    if s = 429 then ([Event.request page, Event.sleep 60], none)
    else if s = 200 then ([Event.request page], some docs)
    else ([Event.request page], none)

/-- Row built by `parse_articles` for one document:
`article.get('web_url', '')` defaults a missing URL to the empty
string. -/
def parseArticle (d : RawDoc) : Article :=
  { headline := d.headline, pub_date := d.pub_date,
    web_url := d.web_url.getD defaultStr }

/-- Function `parse_articles`: `None` (or a body without the expected keys) gives
an empty frame, otherwise one row per document. -/
def parse_articles : Option (List RawDoc) → List Article
  | none => []
  | some ds => ds.map parseArticle

/-- The stop condition of the NYT pagination loop at one page, as a
predicate on the page's HTTP outcome: a failed request or a 429 yields
`response = None` (break), a 200 body parses to `len(docs)` rows, and
the loop breaks on `len(df) == 0` or `len(df) < 10` — all subsumed by
`status ≠ 200 ∨ docs.length < 10`. -/
def pageStop (r : NYTHttp) : Prop :=
  match r with
  | NYTHttp.exn => True
  | NYTHttp.resp s docs => s ≠ 200 ∨ docs.length < 10

/-- The NYT pagination loop (`for page in range(1, 15)`), fuel-indexed:
`paginate o 14 1` runs pages 1..14.  Each iteration sleeps 7s, issues
the single query, breaks on `None`, breaks on an empty parse, appends,
and breaks early when a page has fewer than 10 rows. -/
def paginate (o : Nat → NYTHttp) : Nat → Nat → List Event × List (List Article)
  | 0, _ => ([], [])
  | fuel + 1, page =>
    let s := search_trump_covid_single o page
    let evs := Event.sleep 7 :: s.1
    match s.2 with
    | none => (evs, [])
    | some docs =>
      let df := parse_articles (some docs)
      if df.length = 0 then (evs, [])
      else if df.length < 10 then (evs, [df])
      else
        let rest := paginate o fuel (page + 1)
        (evs ++ rest.1, df :: rest.2)

/-- Function `get_all_articles_for_month`: multi-query pass (oracle `co`), then
pagination (oracle `po`, pages 1..14), concatenation of the collected
frames and `drop_duplicates(subset=['web_url'], keep='first')`. -/
def get_all_articles_for_month (co po : Nat → NYTHttp) :
    List Event × List Article :=
  let r := search_trump_covid_comprehensive co
  let dfs0 : List (List Article) :=
    match r with
    | some docs =>
      let df := parse_articles (some docs)
      if 0 < df.length then [df] else []
    | none => []
  let pag := paginate po 14 1
  let all_articles := dfs0 ++ pag.2
  (compEvents co ++ pag.1,
   if all_articles = [] then []
   else drop_duplicates (fun a => a.web_url) all_articles.flatten)

end NYT

namespace Guardian

/-- Events of iteration `i` of the Guardian multi-query loop:
`time.sleep(1)` before every query but the first, the request, and
`time.sleep(10)` on HTTP 429. -/
def queryEvents (o : Nat → GHttp) (i : Nat) : List Event :=
  (if 0 < i then [Event.sleep 1] else []) ++ [Event.request i] ++
    (match o i with
     | GHttp.exn => []
     | GHttp.resp s _ _ _ => if s = 429 then [Event.sleep 10] else [])

/-- Data effect of iteration `i` of the Guardian multi-query loop: only
HTTP 200 contributes, deduplicated against `seen_ids` by `article.get('id')`. -/
def mergeStep (o : Nat → GHttp) (st : List GRawDoc × List String) (i : Nat) :
    List GRawDoc × List String :=
  match o i with
  | GHttp.exn => st
  | GHttp.resp s _ _ results =>
    if s = 200 then appendSeen (fun d => d.id) st results else st

def compEvents (o : Nat → GHttp) : List Event :=
  ((List.range 5).map (queryEvents o)).flatten

def compMerged (o : Nat → GHttp) : List GRawDoc :=
  ((List.range 5).foldl (mergeStep o) ([], [])).1

/-- Guardian `search_trump_covid_comprehensive`. -/
def search_trump_covid_comprehensive (o : Nat → GHttp) : Option (List GRawDoc) :=
  if compMerged o = [] then none else some (compMerged o)

/-- Guardian `search_trump_covid_single`: 429 sleeps 10s and returns
`None`; other non-200 or exception returns `None`; 200 returns the body
(pagination metadata plus results). -/
def search_trump_covid_single (o : Nat → GHttp) (page : Nat) :
    List Event × Option (Nat × Nat × List GRawDoc) :=
  match o page with
  | GHttp.exn => ([Event.request page], none)
  | GHttp.resp s pages cur results =>
    if s = 429 then ([Event.request page, Event.sleep 10], none)
    else if s = 200 then ([Event.request page], some (pages, cur, results))
    else ([Event.request page], none)

/-- Row built by `parse_guardian_articles`: `article.get('id', '')`
defaults a missing id to the empty string. -/
def parseGArticle (a : GRawDoc) : GArticle :=
  { headline := a.webTitle, pub_date := a.webPublicationDate,
    article_id := a.id.getD defaultStr }

def parse_guardian_articles : Option (List GRawDoc) → List GArticle
  | none => []
  | some ds => ds.map parseGArticle

/-- The stop condition of the Guardian pagination loop at one page:
failed request / 429 (`None`, break), empty result list (break), or the
pagination metadata reporting `currentPage >= pages` (break after
appending). -/
def pageStop (r : GHttp) : Prop :=
  match r with
  | GHttp.exn => True
  | GHttp.resp s pages cur results => s ≠ 200 ∨ results.length = 0 ∨ pages ≤ cur

/-- The Guardian pagination loop (`page = 2; while page <= 20`), fuel
indexed: `paginate o 19 2` runs pages 2..20.  Each iteration sleeps 1s,
issues the single query, breaks on `None`, breaks on an empty parse,
appends, breaks when `currentPage >= pages`, else increments. -/
def paginate (o : Nat → GHttp) : Nat → Nat → List Event × List (List GArticle)
  | 0, _ => ([], [])
  | fuel + 1, page =>
    let s := search_trump_covid_single o page
    let evs := Event.sleep 1 :: s.1
    match s.2 with
    | none => (evs, [])
    | some b =>
      let df := parse_guardian_articles (some b.2.2)
      if df.length = 0 then (evs, [])
      else if b.1 ≤ b.2.1 then (evs, [df])
      else
        let rest := paginate o fuel (page + 1)
        (evs ++ rest.1, df :: rest.2)

/-- Guardian `get_all_articles_for_month`: merge pass at page 1, then
pagination over pages 2..20, concatenation and
`drop_duplicates(subset=['article_id'], keep='first')`. -/
def get_all_articles_for_month (co po : Nat → GHttp) :
    List Event × List GArticle :=
  let r := search_trump_covid_comprehensive co
  let dfs0 : List (List GArticle) :=
    match r with
    | some docs =>
      let df := parse_guardian_articles (some docs)
      if 0 < df.length then [df] else []
    | none => []
  let pag := paginate po 19 2
  let all_articles := dfs0 ++ pag.2
  (compEvents co ++ pag.1,
   if all_articles = [] then []
   else drop_duplicates (fun a => a.article_id) all_articles.flatten)

end Guardian

/-! ### Dates, query windows and the backfill driver -/

/-- A calendar date as the scripts use `datetime.date`. -/
structure Date where
  y : Nat
  m : Nat
  d : Nat
  deriving DecidableEq, Repr

/-- Comparison `datetime.date.__le__`: lexicographic on (year, month, day). -/
def dateLe (a b : Date) : Prop :=
  a.y < b.y ∨ (a.y = b.y ∧ (a.m < b.m ∨ (a.m = b.m ∧ a.d ≤ b.d)))

instance dateLeDec (a b : Date) : Decidable (dateLe a b) := by
  unfold dateLe
  infer_instance

/-- Gregorian leap-year rule (as `datetime.date` implements it). -/
def isLeap (y : Nat) : Bool :=
  (y % 4 == 0 && y % 100 != 0) || (y % 400 == 0)

def daysInMonth (y m : Nat) : Nat :=
  if m = 2 then (if isLeap y then 29 else 28)
  else if m = 4 ∨ m = 6 ∨ m = 9 ∨ m = 11 then 30
  else 31

/-- Computes `d - datetime.timedelta(days=1)` on a valid date. -/
def dateSubOneDay (c : Date) : Date :=
  if 1 < c.d then ⟨c.y, c.m, c.d - 1⟩
  else if 1 < c.m then ⟨c.y, c.m - 1, daysInMonth c.y (c.m - 1)⟩
  else ⟨c.y - 1, 12, 31⟩

/-- The month query window computed identically at lines 20-24 / 104-108
of the NYT script and 189-193 of the Guardian script:
`start = date(y, m, 1)`;
`end = date(y+1, 1, 1) - 1 day` if `m = 12` else `date(y, m+1, 1) - 1 day`. -/
def queryWindow (y m : Nat) : Date × Date :=
  (⟨y, m, 1⟩,
   if m = 12 then dateSubOneDay ⟨y + 1, 1, 1⟩ else dateSubOneDay ⟨y, m + 1, 1⟩)

/-- Advance `current` to the first day of the next month
(`date(y+1, 1, 1)` after December, else `date(y, m+1, 1)`). -/
def nextMonthFirst (c : Date) : Date :=
  if c.m = 12 then ⟨c.y + 1, 1, 1⟩ else ⟨c.y, c.m + 1, 1⟩

/-- The per-source output directory: `(year, month)` keyed monthly files
(`'{dir}/{year}-{month:02d}.csv'` names are injective in `(year, month)`). -/
abbrev FS (α : Type) : Type := (Nat × Nat) → Option (List α)

def fsInsert (fs : FS α) (k : Nat × Nat) (v : List α) : FS α :=
  fun k2 => if k2 = k then some v else fs k2

/-- One month of `scrape_by_month`: if the monthly file exists it is read
back verbatim (no fetch); otherwise `get_all_articles_for_month` (here
the abstract `fetch`) runs and a non-empty result is written.  The
`Bool` records whether the network path was taken. -/
def processMonth (fs : FS α) (fetch : Nat → Nat → List α) (y m : Nat) :
    List α × FS α × Bool :=
  match fs (y, m) with
  | some rows => (rows, fs, false)
  | none =>
    let df := fetch y m
    if 0 < df.length then (df, fsInsert fs (y, m) df, true)
    else (df, fs, true)

/-- Result of one driver run: final directory state, the per-month
datasets in visit order (the source records `(year_month, count)`; we
keep the dataset itself, the count being its length), and the months for
which the network path was taken. -/
structure RunResult (α : Type) where
  fs : FS α
  monthlyData : List ((Nat × Nat) × List α)
  fetchedMonths : List (Nat × Nat)

/-- The `while current <= end_date` loop of `scrape_by_month`,
fuel-indexed (the fuel supplied by `scrape_by_month` below always
suffices for valid dates). -/
def scrapeLoop (fetch : Nat → Nat → List α) (endD : Date) :
    Nat → Date → FS α → RunResult α
  | 0, _, fs => ⟨fs, [], []⟩
  | fuel + 1, cur, fs =>
    if dateLe cur endD then
      let p := processMonth fs fetch cur.y cur.m
      let rest := scrapeLoop fetch endD fuel (nextMonthFirst cur) p.2.1
      ⟨rest.fs, ((cur.y, cur.m), p.1) :: rest.monthlyData,
        (if p.2.2 then [(cur.y, cur.m)] else []) ++ rest.fetchedMonths⟩
    else ⟨fs, [], []⟩

/-- Linear month index: `monthIdx y m = 12 * y + (m - 1)` for `1 ≤ m`. -/
def monthIdx (y m : Nat) : Nat := 12 * y + m - 1

def idxToYM (i : Nat) : Nat × Nat := (i / 12, i % 12 + 1)

/-- The months from index `s` to index `e` inclusive, in calendar order. -/
def monthRangeList (s e : Nat) : List (Nat × Nat) :=
  (List.range' s (e + 1 - s)).map idxToYM

/-- Function `scrape_by_month(start_date, end_date)` over an abstract monthly
fetch and an initial directory state. -/
def scrape_by_month (fetch : Nat → Nat → List α) (startD endD : Date)
    (fs : FS α) : RunResult α :=
  scrapeLoop fetch endD
    (monthIdx endD.y endD.m + 2 - monthIdx startD.y startD.m) startD fs

/-- The months visited by a driver run, in order. -/
def visitedMonths (r : RunResult α) : List (Nat × Nat) :=
  r.monthlyData.map Prod.fst

/-! ### The module-level combine step -/

/-- Descending stable-enough insertion by a numeric column. -/
def insertDesc (pd : α → Nat) (a : α) : List α → List α
  | [] => [a]
  | b :: t => if pd a ≤ pd b then b :: insertDesc pd a t else a :: b :: t

/-- Models `combined.sort_values('pub_date', ascending=False)`. -/
def sort_values_desc (pd : α → Nat) : List α → List α
  | [] => []
  | a :: t => insertDesc pd a (sort_values_desc pd t)

/-- The module-level combine over an ordered list of file bodies:
`pd.concat([read(f) for f in files])`, then
`drop_duplicates(subset=[key], keep='first')`, then sort by publication
timestamp descending. -/
def combine_all_files (key : α → String) (pd : α → Nat)
    (files : List (List α)) : List α :=
  sort_values_desc pd (drop_duplicates key files.flatten)

/-- Lexicographic order on strings by code point, as Python compares the
globbed file names (agrees with `str.__lt__` on these ASCII names). -/
def strLtB : List Char → List Char → Bool
  | [], [] => false
  | [], _ :: _ => true
  | _ :: _, [] => false
  | a :: as, b :: bs =>
    if a.toNat < b.toNat then true
    else if b.toNat < a.toNat then false
    else strLtB as bs

/-- Ascending insertion by file name, modelling `sorted(glob(...))`. -/
def insertByName (name : α → String) (a : α) : List α → List α
  | [] => [a]
  | b :: t =>
    if strLtB (name b).data (name a).data then b :: insertByName name a t
    else a :: b :: t

def sortByName (name : α → String) : List α → List α
  | [] => []
  | a :: t => insertByName name a (sortByName name t)

/-- Models `sorted(glob(...))` over the output directory: every `.csv` file in the directory
(monthly files and, when present, the previously written combined file),
in filename order. -/
def globCsv (dir : List (String × List Article)) : List (String × List Article) :=
  sortByName Prod.fst dir

/-- Models `df.to_csv(path)`: overwrite the named file, or create it. -/
def writeFile (dir : List (String × List Article)) (nm : String)
    (rows : List Article) : List (String × List Article) :=
  if dir.any (fun f => f.1 = nm) then
    dir.map (fun f => if f.1 = nm then (nm, rows) else f)
  else dir ++ [(nm, rows)]

def combinedName : String := "combined"

/-- One execution of the module-level combine block of the NYT script:
glob all `.csv` files, concatenate in sorted filename order, deduplicate
by `web_url`, sort by `pub_date` descending, and write the result back
into the same directory as the combined file (skipped when the glob is
empty). -/
def combineRun (dir : List (String × List Article)) : List (String × List Article) :=
  let files := globCsv dir
  if files = [] then dir
  else
    writeFile dir combinedName
      (combine_all_files (fun a => a.web_url) (fun a => a.pub_date)
        (files.map Prod.snd))

/-! ### Concrete inputs used by witnesses and counterexamples -/

def mkDocs (n : Nat) : List RawDoc :=
  (List.range n).map (fun i => { web_url := some (toString i), headline := defaultStr, pub_date := i })

/-- Page oracle whose page 1 is rate limited while later pages would
succeed with plenty of results. -/
def rateLimitedPageOracle : Nat → NYTHttp :=
  fun p => if p = 1 then NYTHttp.resp 429 [] else NYTHttp.resp 200 (mkDocs 12)

/-- Page oracle whose page 1 fails with HTTP 500 while later pages would
succeed with plenty of results. -/
def failedPageOracle : Nat → NYTHttp :=
  fun p => if p = 1 then NYTHttp.resp 500 [] else NYTHttp.resp 200 (mkDocs 12)

/-- A document with no `web_url` field at all. -/
def noUrlDoc : RawDoc := { web_url := none, headline := "h", pub_date := 5 }

/-- Merge-pass oracle on which every request raises. -/
def allExnOracle : Nat → NYTHttp := fun _ => NYTHttp.exn

/-- Page oracle delivering the url-less document on page 1. -/
def noUrlPageOracle : Nat → NYTHttp :=
  fun p => if p = 1 then NYTHttp.resp 200 [noUrlDoc] else NYTHttp.exn

/-- Merge-pass oracle on which every request fails (non-200). -/
def allFailOracle : Nat → NYTHttp := fun _ => NYTHttp.resp 500 []

/-- Merge-pass oracle on which every request succeeds with zero documents. -/
def allEmptyOracle : Nat → NYTHttp := fun _ => NYTHttp.resp 200 []

def gAllFailOracle : Nat → GHttp := fun _ => GHttp.exn

def gAllEmptyOracle : Nat → GHttp := fun _ => GHttp.resp 200 0 0 []

/-- A merge-pass oracle whose first query returns one good document. -/
def oneDoc : RawDoc := { web_url := some ("u"), headline := "h", pub_date := 3 }

def gOneDoc : GRawDoc := { id := some ("g"), webTitle := "h", webPublicationDate := 3 }

def oneDocOracle : Nat → NYTHttp :=
  fun i => if i = 0 then NYTHttp.resp 200 [oneDoc] else NYTHttp.exn

def gOneDocOracle : Nat → GHttp :=
  fun i => if i = 0 then GHttp.resp 200 1 1 [gOneDoc] else GHttp.exn

/-- All-429 merge oracle. -/
def all429Oracle : Nat → NYTHttp := fun _ => NYTHttp.resp 429 []

def gAll429Oracle : Nat → GHttp := fun _ => GHttp.resp 429 0 0 []

def emptyFS : FS Article := fun _ => none

def artU1 : Article := { headline := "h1", pub_date := 30, web_url := "u1" }
def artU2 : Article := { headline := "h2", pub_date := 10, web_url := "u2" }
def artU2' : Article := { headline := "h2b", pub_date := 11, web_url := "u2" }
def artU3 : Article := { headline := "h3", pub_date := 20, web_url := "u3" }

def gArtA : GArticle := { headline := "g1", pub_date := 4, article_id := "a" }
def gArtB : GArticle := { headline := "g2", pub_date := 9, article_id := "b" }

/-- A directory holding one monthly file, as left by a first run's
month loop. -/
def monthlyOnlyDir : List (String × List Article) := [("2020-01", [artU1])]

/-- An initial directory state in which January 2020 is already
persisted. -/
def janFS : FS Article :=
  fun k => if k = (2020, 1) then some [artU1] else none

def constFetch : Nat → Nat → List Article := fun _ _ => [artU2]

def emptyFetch : Nat → Nat → List Article := fun _ _ => []

/-- A page oracle: page 1 full (12 documents), page 2 empty. -/
def nytTwoPageOracle : Nat → NYTHttp :=
  fun p => if p = 1 then NYTHttp.resp 200 (mkDocs 12) else NYTHttp.resp 200 []

end NewsScrape

namespace NewsScrape

/-! ### Deduplicator lemmas -/

theorem mem_cons_ne {k v : String} (h : ¬ k = v) (seen : List String) :
    (k ∈ v :: seen) ↔ k ∈ seen := by
  simp [List.mem_cons, h]

theorem dropDupAux_countP (key : α → String) (k : String) :
    ∀ (l : List α) (seen : List String),
      (dropDupAux key seen l).countP (fun a => key a == k)
        = if k ∈ seen then 0 else if k ∈ l.map key then 1 else 0 := by
  intro l
  induction l with
  | nil => intro seen; simp [dropDupAux]
  | cons a l ih =>
    intro seen
    by_cases hs : key a ∈ seen
    · rw [dropDupAux, if_pos hs, ih seen]
      by_cases hk : k ∈ seen
      · simp [hk]
      · have hak : ¬ k = key a := fun h => hk (h ▸ hs)
        have hak2 : ¬ key a = k := fun h => hak h.symm
        simp [hak, hak2, hk]
    · rw [dropDupAux, if_neg hs, List.countP_cons, ih (key a :: seen)]
      by_cases hak : k = key a
      · have hmem : k ∈ key a :: seen := by
          rw [hak]; exact List.mem_cons_self _ _
        have hknot : k ∉ seen := fun h => hs (by rw [← hak]; exact h)
        have hmap : k ∈ (a :: l).map key := by
          rw [hak]; exact List.mem_map_of_mem key (List.mem_cons_self a l)
        have hbeq : (key a == k) = true := by simp [hak.symm]
        simp [hmem, hknot, hmap, hbeq, hak, hs]
      · have h1 := mem_cons_ne hak seen
        have hbeq : (key a == k) = false := by
          simp
          exact fun h => hak h.symm
        by_cases hk : k ∈ seen
        · simp [h1.mpr hk, hk, hbeq]
        · have hkc : k ∉ key a :: seen := fun h => hk (h1.mp h)
          have h2 : (k ∈ (a :: l).map key) ↔ k ∈ l.map key := by
            rw [List.map_cons]
            exact mem_cons_ne hak _
          by_cases hkl : k ∈ l.map key
          · simp [hkc, hk, hbeq, hkl, h2.mpr hkl]
          · have hkal : k ∉ (a :: l).map key := fun h => hkl (h2.mp h)
            have hkl2 : ¬ ∃ b ∈ l, key b = k := by simpa using hkl
            simp [hkc, hk, hbeq, hkl2, hak]

theorem dropDupAux_find (key : α → String) (k : String) :
    ∀ (l : List α) (seen : List String),
      (dropDupAux key seen l).find? (fun a => key a == k)
        = if k ∈ seen then none else l.find? (fun a => key a == k) := by
  intro l
  induction l with
  | nil => intro seen; simp [dropDupAux]
  | cons a l ih =>
    intro seen
    by_cases hak : k = key a
    · have hbeq : (key a == k) = true := by simp [hak.symm]
      by_cases hs : key a ∈ seen
      · rw [dropDupAux, if_pos hs, ih seen]
        have hk : k ∈ seen := by rw [hak]; exact hs
        simp [hk]
      · rw [dropDupAux, if_neg hs]
        have hknot : k ∉ seen := fun h => hs (by rw [← hak]; exact h)
        simp only [List.find?, hbeq]
        rw [if_neg hknot]
    · have hbeq : (key a == k) = false := by
        simp
        exact fun h => hak h.symm
      by_cases hs : key a ∈ seen
      · rw [dropDupAux, if_pos hs, ih seen]
        by_cases hk : k ∈ seen
        · simp [hk]
        · simp only [if_neg hk, List.find?, hbeq]
      · rw [dropDupAux, if_neg hs]
        simp only [List.find?, hbeq]
        rw [ih (key a :: seen)]
        have h1 := mem_cons_ne hak seen
        by_cases hk : k ∈ seen
        · rw [if_pos (h1.mpr hk), if_pos hk]
        · rw [if_neg (fun h => hk (h1.mp h)), if_neg hk]

theorem dropDupAux_nodup_and_disjoint (key : α → String) :
    ∀ (l : List α) (seen : List String),
      ((dropDupAux key seen l).map key).Nodup
      ∧ ∀ k ∈ (dropDupAux key seen l).map key, k ∉ seen := by
  intro l
  induction l with
  | nil => intro seen; simp [dropDupAux]
  | cons a l ih =>
    intro seen
    by_cases hs : key a ∈ seen
    · rw [dropDupAux, if_pos hs]; exact ih seen
    · rw [dropDupAux, if_neg hs]
      obtain ⟨hnd, hdisj⟩ := ih (key a :: seen)
      refine ⟨?_, ?_⟩
      · rw [List.map_cons, List.nodup_cons]
        exact ⟨fun hmem => hdisj _ hmem (List.mem_cons_self _ _), hnd⟩
      · intro k hk
        rw [List.map_cons, List.mem_cons] at hk
        rcases hk with hk | hk
        · exact hk ▸ hs
        · exact fun hkseen => hdisj _ hk (List.mem_cons_of_mem _ hkseen)

theorem dropDupAux_of_nodup (key : α → String) :
    ∀ (l : List α) (seen : List String),
      (l.map key).Nodup → (∀ k ∈ l.map key, k ∉ seen) →
      dropDupAux key seen l = l := by
  intro l
  induction l with
  | nil => intro seen _ _; simp [dropDupAux]
  | cons a l ih =>
    intro seen hnd hdisj
    rw [List.map_cons, List.nodup_cons] at hnd
    have hs : key a ∉ seen := hdisj _ (by simp)
    rw [dropDupAux, if_neg hs]
    congr 1
    refine ih _ hnd.2 ?_
    intro k hk hmem
    rcases List.mem_cons.mp hmem with h | h
    · exact hnd.1 (h ▸ hk)
    · exact hdisj k (List.mem_cons_of_mem _ hk) h

theorem drop_duplicates_idem (key : α → String) (l : List α) :
    drop_duplicates key (drop_duplicates key l) = drop_duplicates key l := by
  obtain ⟨hnd, _⟩ := dropDupAux_nodup_and_disjoint key l []
  exact dropDupAux_of_nodup key _ [] hnd (by simp)

theorem drop_duplicates_of_nodup (key : α → String) (l : List α)
    (h : (l.map key).Nodup) : drop_duplicates key l = l :=
  dropDupAux_of_nodup key l [] h (by simp)

/-! ### Merge-pass seen-set lemmas -/

theorem appendSeen_general (getKey : α → Option String) :
    ∀ (ds : List α) (acc : List α) (seen : List String),
      appendSeen getKey (acc, seen) ds
        = (acc ++ (appendSeen getKey ([], seen) ds).1,
           (appendSeen getKey ([], seen) ds).2) := by
  intro ds
  induction ds with
  | nil => intro acc seen; simp [appendSeen]
  | cons d ds ih =>
    intro acc seen
    cases hk : getKey d with
    | none =>
      simp only [appendSeen, hk]
      exact ih acc seen
    | some u =>
      by_cases hu : u = "" ∨ u ∈ seen
      · simp only [appendSeen, hk, if_pos hu]
        exact ih acc seen
      · simp only [appendSeen, hk, if_neg hu, List.nil_append]
        rw [ih (acc ++ [d]) (u :: seen), ih [d] (u :: seen)]
        simp

theorem appendSeen_countP (getKey : α → Option String) (u : String) :
    ∀ (ds : List α) (seen : List String),
      (appendSeen getKey ([], seen) ds).1.countP (fun d => getKey d == some u)
        = if u ≠ "" ∧ u ∉ seen ∧ some u ∈ ds.map getKey then 1 else 0 := by
  intro ds
  induction ds with
  | nil => intro seen; simp [appendSeen]
  | cons d ds ih =>
    intro seen
    cases hk : getKey d with
    | none =>
      simp only [appendSeen, hk]
      rw [ih seen]
      simp [hk]
    | some v =>
      by_cases huv : u = v
      · subst huv
        by_cases hv : u = "" ∨ u ∈ seen
        · simp only [appendSeen, hk, if_pos hv]
          rw [ih seen]
          have h2 : ¬ (u ≠ "" ∧ u ∉ seen ∧ some u ∈ ds.map getKey) := by
            rcases hv with hv | hv
            · exact fun h => h.1 hv
            · exact fun h => h.2.1 hv
          have h3 : ¬ (u ≠ "" ∧ u ∉ seen ∧ some u ∈ (d :: ds).map getKey) := by
            rcases hv with hv | hv
            · exact fun h => h.1 hv
            · exact fun h => h.2.1 hv
          rw [if_neg h2, if_neg h3]
        · push_neg at hv
          simp only [appendSeen, hk, if_neg (by simp [hv.1, hv.2] : ¬ (u = "" ∨ u ∈ seen)),
            List.nil_append]
          rw [appendSeen_general, List.countP_append, ih (u :: seen)]
          have h2 : ¬ (u ≠ "" ∧ u ∉ u :: seen ∧ some u ∈ ds.map getKey) :=
            fun h => h.2.1 (List.mem_cons_self _ _)
          have h3 : u ≠ "" ∧ u ∉ seen ∧ some u ∈ (d :: ds).map getKey :=
            ⟨hv.1, hv.2, by simp [hk]⟩
          rw [if_neg h2, if_pos h3]
          simp [hk]
      · have hbeq : ((getKey d == some u) = false) := by
          simp [hk]
          exact fun h => huv h.symm
        by_cases hv : v = "" ∨ v ∈ seen
        · simp only [appendSeen, hk, if_pos hv]
          rw [ih seen]
          have h4 : (some u ∈ (d :: ds).map getKey) ↔ some u ∈ ds.map getKey := by
            simp only [List.map_cons, List.mem_cons, hk]
            constructor
            · intro h
              rcases h with h | h
              · exact absurd (Option.some.inj h) huv
              · exact h
            · exact fun h => Or.inr h
          simp only [h4]
        · push_neg at hv
          simp only [appendSeen, hk, if_neg (by simp [hv.1, hv.2] : ¬ (v = "" ∨ v ∈ seen)),
            List.nil_append]
          rw [appendSeen_general, List.countP_append, ih (v :: seen)]
          have h1 : (u ∉ v :: seen) ↔ u ∉ seen := by
            simp [List.mem_cons, huv]
          have h4 : (some u ∈ (d :: ds).map getKey) ↔ some u ∈ ds.map getKey := by
            simp only [List.map_cons, List.mem_cons, hk]
            constructor
            · intro h
              rcases h with h | h
              · exact absurd (Option.some.inj h) huv
              · exact h
            · exact fun h => Or.inr h
          simp only [List.countP_cons, List.countP_nil, hbeq, h1, h4]
          simp

theorem appendSeen_find (getKey : α → Option String) (u : String) :
    ∀ (ds : List α) (seen : List String),
      (appendSeen getKey ([], seen) ds).1.find? (fun d => getKey d == some u)
        = if u = "" ∨ u ∈ seen then none
          else ds.find? (fun d => getKey d == some u) := by
  intro ds
  induction ds with
  | nil => intro seen; simp [appendSeen]
  | cons d ds ih =>
    intro seen
    cases hk : getKey d with
    | none =>
      have hbeq : ((getKey d == some u) = false) := by simp [hk]
      simp only [appendSeen, hk]
      rw [ih seen]
      simp only [List.find?, hbeq]
    | some v =>
      by_cases huv : u = v
      · subst huv
        have hbeq : ((getKey d == some u) = true) := by simp [hk]
        by_cases hv : u = "" ∨ u ∈ seen
        · simp only [appendSeen, hk, if_pos hv]
          rw [ih seen]
          simp [hv]
        · push_neg at hv
          simp only [appendSeen, hk, if_neg (by simp [hv.1, hv.2] : ¬ (u = "" ∨ u ∈ seen)),
            List.nil_append]
          rw [appendSeen_general, List.find?_append]
          simp only [List.find?, hbeq]
          rfl
      · have hbeq : ((getKey d == some u) = false) := by
          simp [hk]
          exact fun h => huv h.symm
        by_cases hv : v = "" ∨ v ∈ seen
        · simp only [appendSeen, hk, if_pos hv]
          rw [ih seen]
          simp only [List.find?, hbeq]
        · push_neg at hv
          simp only [appendSeen, hk, if_neg (by simp [hv.1, hv.2] : ¬ (v = "" ∨ v ∈ seen)),
            List.nil_append]
          rw [appendSeen_general, List.find?_append, ih (v :: seen)]
          have h1 : (u = "" ∨ u ∈ v :: seen) ↔ (u = "" ∨ u ∈ seen) := by
            simp [List.mem_cons, huv]
          simp only [h1, List.find?, hbeq]
          by_cases hc : u = "" ∨ u ∈ seen
          · simp [hc]
          · simp [hc]

theorem appendSeen_mem (getKey : α → Option String) :
    ∀ (ds : List α) (acc : List α) (seen : List String),
      ∀ d ∈ (appendSeen getKey (acc, seen) ds).1, d ∈ acc ∨ d ∈ ds := by
  intro ds
  induction ds with
  | nil =>
    intro acc seen d hd
    exact Or.inl (by simpa [appendSeen] using hd)
  | cons x ds ih =>
    intro acc seen d hd
    cases hk : getKey x with
    | none =>
      simp only [appendSeen, hk] at hd
      rcases ih acc seen d hd with h | h
      · exact Or.inl h
      · exact Or.inr (List.mem_cons_of_mem _ h)
    | some u =>
      by_cases hu : u = "" ∨ u ∈ seen
      · simp only [appendSeen, hk, if_pos hu] at hd
        rcases ih acc seen d hd with h | h
        · exact Or.inl h
        · exact Or.inr (List.mem_cons_of_mem _ h)
      · simp only [appendSeen, hk, if_neg hu] at hd
        rcases ih (acc ++ [x]) (u :: seen) d hd with h | h
        · rcases List.mem_append.mp h with h | h
          · exact Or.inl h
          · exact Or.inr (List.mem_cons.mpr (Or.inl (List.mem_singleton.mp h)))
        · exact Or.inr (List.mem_cons_of_mem _ h)

theorem appendSeen_truthy (getKey : α → Option String) :
    ∀ (ds : List α) (acc : List α) (seen : List String),
      (∀ d ∈ acc, truthy (getKey d) = true) →
      ∀ d ∈ (appendSeen getKey (acc, seen) ds).1, truthy (getKey d) = true := by
  intro ds
  induction ds with
  | nil =>
    intro acc seen hacc d hd
    exact hacc d (by simpa [appendSeen] using hd)
  | cons x ds ih =>
    intro acc seen hacc d hd
    cases hk : getKey x with
    | none =>
      simp only [appendSeen, hk] at hd
      exact ih acc seen hacc d hd
    | some u =>
      by_cases hu : u = "" ∨ u ∈ seen
      · simp only [appendSeen, hk, if_pos hu] at hd
        exact ih acc seen hacc d hd
      · simp only [appendSeen, hk, if_neg hu] at hd
        push_neg at hu
        refine ih (acc ++ [x]) (u :: seen) ?_ d hd
        intro e he
        rcases List.mem_append.mp he with h | h
        · exact hacc e h
        · rw [List.mem_singleton.mp h, hk]
          simp [truthy, hu.1]

/-! ### Claim theorems: deduplication -/

/-- Claim C1: for every ordered sequence of raw documents (possibly with
duplicate identity keys), the deduplicator output contains each identity
key exactly once and the retained row is the first occurrence of that
key in input order.  Stated for all three deduplication sites: NYT
`drop_duplicates(subset=['web_url'])`, Guardian
`drop_duplicates(subset=['article_id'])`, and the merge-pass `seen_urls`
loop (where a document whose `web_url` is missing or empty carries no
identity key and is dropped, so only truthy keys occur in its output). -/
theorem C1_dedup_keeps_first_occurrence :
    (∀ (l : List Article) (k : String),
        (drop_duplicates (fun a => a.web_url) l).countP (fun a => a.web_url == k)
          = (if k ∈ l.map (fun a => a.web_url) then 1 else 0)
      ∧ (drop_duplicates (fun a => a.web_url) l).find? (fun a => a.web_url == k)
          = l.find? (fun a => a.web_url == k))
  ∧ (∀ (l : List GArticle) (k : String),
        (drop_duplicates (fun a => a.article_id) l).countP (fun a => a.article_id == k)
          = (if k ∈ l.map (fun a => a.article_id) then 1 else 0)
      ∧ (drop_duplicates (fun a => a.article_id) l).find? (fun a => a.article_id == k)
          = l.find? (fun a => a.article_id == k))
  ∧ (∀ (ds : List RawDoc) (u : String),
        (appendSeen (fun d => d.web_url) ([], []) ds).1.countP (fun d => d.web_url == some u)
          = (if u ≠ "" ∧ some u ∈ ds.map (fun d => d.web_url) then 1 else 0)
      ∧ (appendSeen (fun d => d.web_url) ([], []) ds).1.find? (fun d => d.web_url == some u)
          = (if u = "" then none else ds.find? (fun d => d.web_url == some u))) := by
  refine ⟨?_, ?_, ?_⟩
  · intro l k
    refine ⟨?_, ?_⟩
    · rw [drop_duplicates, dropDupAux_countP]
      simp
    · rw [drop_duplicates, dropDupAux_find]
      simp
  · intro l k
    refine ⟨?_, ?_⟩
    · rw [drop_duplicates, dropDupAux_countP]
      simp
    · rw [drop_duplicates, dropDupAux_find]
      simp
  · intro ds u
    refine ⟨?_, ?_⟩
    · rw [appendSeen_countP]
      simp
    · rw [appendSeen_find]
      simp

/-- Claim C9: the deduplicator is idempotent — on a sequence whose
identity keys are already pairwise distinct it is the identity, and
applying it twice equals applying it once (for both the NYT `web_url`
key and the Guardian `article_id` key). -/
theorem C9_dedup_idempotent :
    (∀ l : List Article,
        (l.map (fun a => a.web_url)).Nodup →
        drop_duplicates (fun a => a.web_url) l = l)
  ∧ (∀ l : List Article,
        drop_duplicates (fun a => a.web_url)
            (drop_duplicates (fun a => a.web_url) l)
          = drop_duplicates (fun a => a.web_url) l)
  ∧ (∀ l : List GArticle,
        (l.map (fun a => a.article_id)).Nodup →
        drop_duplicates (fun a => a.article_id) l = l)
  ∧ (∀ l : List GArticle,
        drop_duplicates (fun a => a.article_id)
            (drop_duplicates (fun a => a.article_id) l)
          = drop_duplicates (fun a => a.article_id) l) := by
  exact ⟨fun l => drop_duplicates_of_nodup _ l,
    fun l => drop_duplicates_idem _ l,
    fun l => drop_duplicates_of_nodup _ l,
    fun l => drop_duplicates_idem _ l⟩

/-- Witness for C9 at concrete inputs: a two-article key-distinct list is
left unchanged, and deduplicating a three-article list (with one
duplicated key) twice equals deduplicating it once. -/
theorem C9_dedup_idempotent_witness :
    drop_duplicates (fun a => a.web_url) [artU1, artU2] = [artU1, artU2]
  ∧ drop_duplicates (fun a => a.web_url)
        (drop_duplicates (fun a => a.web_url) [artU1, artU2, artU2'])
      = drop_duplicates (fun a => a.web_url) [artU1, artU2, artU2']
  ∧ drop_duplicates (fun a => a.article_id) [gArtA, gArtB] = [gArtA, gArtB] := by
  exact ⟨C9_dedup_idempotent.1 _ (by decide),
    C9_dedup_idempotent.2.1 _,
    C9_dedup_idempotent.2.2.1 _ (by decide)⟩

/-! ### Sorting lemmas for the combine step -/

theorem insertDesc_perm (pd : α → Nat) (a : α) :
    ∀ l : List α, (insertDesc pd a l).Perm (a :: l) := by
  intro l
  induction l with
  | nil => simp [insertDesc]
  | cons b t ih =>
    rw [insertDesc]
    by_cases h : pd a ≤ pd b
    · rw [if_pos h]
      exact (ih.cons b).trans (List.Perm.swap a b t)
    · rw [if_neg h]

theorem sort_values_desc_perm (pd : α → Nat) :
    ∀ l : List α, (sort_values_desc pd l).Perm l := by
  intro l
  induction l with
  | nil => simp [sort_values_desc]
  | cons a t ih =>
    rw [sort_values_desc]
    exact (insertDesc_perm pd a _).trans (ih.cons a)

theorem insertDesc_pairwise (pd : α → Nat) (a : α) :
    ∀ l : List α, l.Pairwise (fun x y => pd y ≤ pd x) →
      (insertDesc pd a l).Pairwise (fun x y => pd y ≤ pd x) := by
  intro l
  induction l with
  | nil => intro _; simp [insertDesc]
  | cons b t ih =>
    intro hp
    rw [List.pairwise_cons] at hp
    rw [insertDesc]
    by_cases h : pd a ≤ pd b
    · rw [if_pos h]
      rw [List.pairwise_cons]
      refine ⟨?_, ih hp.2⟩
      intro y hy
      rcases List.mem_cons.mp ((insertDesc_perm pd a t).mem_iff.mp hy) with rfl | hyt
      · exact h
      · exact hp.1 y hyt
    · rw [if_neg h]
      push_neg at h
      rw [List.pairwise_cons]
      refine ⟨?_, List.pairwise_cons.mpr hp⟩
      intro y hy
      rcases List.mem_cons.mp hy with rfl | hyt
      · exact le_of_lt h
      · exact le_trans (hp.1 y hyt) (le_of_lt h)

theorem sort_values_desc_pairwise (pd : α → Nat) :
    ∀ l : List α, (sort_values_desc pd l).Pairwise (fun x y => pd y ≤ pd x) := by
  intro l
  induction l with
  | nil => simp [sort_values_desc]
  | cons a t ih =>
    rw [sort_values_desc]
    exact insertDesc_pairwise pd a _ ih

/-! ### Claim theorems: combine step -/

/-- Counterexample to C3 as stated: the combine block reads
`sorted(glob(f'{dir}/*.csv'))`, not only the monthly files.  Starting
from a directory holding exactly one monthly file, one execution of the
combine block writes `combined.csv` into the same directory; on the next
run the glob therefore returns the combined file as well, so the dataset
is not built by reading exactly the persisted monthly files. -/
theorem C3_counterexample :
    (globCsv (combineRun monthlyOnlyDir)).map Prod.fst = ["2020-01", "combined"]
  ∧ combinedName ∈ (globCsv (combineRun monthlyOnlyDir)).map Prod.fst := by
  constructor
  · decide
  · decide

/-- Claim C3 as amended: over the list of file bodies actually read (in
sorted filename order), the combined dataset is their concatenation,
deduplicated by identity key with the first occurrence winning, sorted
by publication timestamp descending; in particular for two monthly
files with key sets `[u1, u2]` and `[u2, u3]` (keys pairwise distinct)
the output is a permutation of the three rows `u1, u2, u3` with the
`u2` row taken from the first file in concatenation order. -/
theorem C3_combined_dataset_amended :
    (∀ files : List (List Article),
        (combine_all_files (fun a => a.web_url) (fun a => a.pub_date) files).Pairwise
          (fun x y => y.pub_date ≤ x.pub_date))
  ∧ (∀ a1 a2 b2 b3 : Article,
        a1.web_url ≠ a2.web_url → a1.web_url ≠ b3.web_url →
        a2.web_url ≠ b3.web_url → b2.web_url = a2.web_url →
        (combine_all_files (fun a => a.web_url) (fun a => a.pub_date)
            [[a1, a2], [b2, b3]]).Perm [a1, a2, b3]) := by
  constructor
  · intro files
    exact sort_values_desc_pairwise _ _
  · intro a1 a2 b2 b3 h12 h13 h23 hb2
    have hfl : ([[a1, a2], [b2, b3]] : List (List Article)).flatten
        = [a1, a2, b2, b3] := by simp
    have e1 : drop_duplicates (fun a => a.web_url) [a1, a2, b2, b3]
        = [a1, a2, b3] := by
      simp [drop_duplicates, dropDupAux, Ne.symm h12, Ne.symm h13, Ne.symm h23,
        hb2, h23]
    rw [combine_all_files, hfl, e1]
    exact sort_values_desc_perm _ _

/-- Witness for the amended C3 at concrete articles (`artU2'` shares the
key of `artU2`). -/
theorem C3_combined_dataset_amended_witness :
    (combine_all_files (fun a => a.web_url) (fun a => a.pub_date)
        [[artU1, artU2], [artU2', artU3]]).Pairwise
      (fun x y => y.pub_date ≤ x.pub_date)
  ∧ (combine_all_files (fun a => a.web_url) (fun a => a.pub_date)
        [[artU1, artU2], [artU2', artU3]]).Perm [artU1, artU2, artU3] := by
  exact ⟨C3_combined_dataset_amended.1 _,
    C3_combined_dataset_amended.2 artU1 artU2 artU2' artU3
      (by decide) (by decide) (by decide) (by decide)⟩

/-! ### Backfill driver lemmas -/

theorem scrapeLoop_preserves (fetch : Nat → Nat → List α) (endD : Date)
    (y m : Nat) (rows : List α) :
    ∀ (fuel : Nat) (cur : Date) (fs : FS α), fs (y, m) = some rows →
      (scrapeLoop fetch endD fuel cur fs).fs (y, m) = some rows
      ∧ (y, m) ∉ (scrapeLoop fetch endD fuel cur fs).fetchedMonths
      ∧ ∀ e ∈ (scrapeLoop fetch endD fuel cur fs).monthlyData,
          e.1 = (y, m) → e.2 = rows := by
  intro fuel
  induction fuel with
  | zero =>
    intro cur fs h
    simp [scrapeLoop, h]
  | succ n ih =>
    intro cur fs h
    rw [scrapeLoop]
    by_cases hle : dateLe cur endD
    · rw [if_pos hle]
      cases hpm : fs (cur.y, cur.m) with
      | some r2 =>
        simp only [processMonth, hpm]
        obtain ⟨h1, h2, h3⟩ := ih (nextMonthFirst cur) fs h
        refine ⟨h1, ?_, ?_⟩
        · simpa using h2
        · intro e he hkey
          simp only [List.mem_cons] at he
          rcases he with rfl | he
          · simp only at hkey
            rw [hkey] at hpm
            rw [h] at hpm
            simpa using (Option.some.inj hpm).symm
          · exact h3 e he hkey
      | none =>
        have hne : (cur.y, cur.m) ≠ (y, m) := by
          intro hcontra
          rw [hcontra, h] at hpm
          exact Option.noConfusion hpm
        by_cases hlen : 0 < (fetch cur.y cur.m).length
        · simp only [processMonth, hpm, if_pos hlen]
          have hfs2 : fsInsert fs (cur.y, cur.m) (fetch cur.y cur.m) (y, m)
              = some rows := by
            rw [fsInsert, if_neg (by exact fun hc => hne hc.symm)]
            exact h
          obtain ⟨h1, h2, h3⟩ := ih (nextMonthFirst cur) _ hfs2
          refine ⟨h1, ?_, ?_⟩
          · rw [if_pos (by trivial)]
            intro hc
            rcases List.mem_append.mp hc with hc2 | hc2
            · exact hne (List.mem_singleton.mp hc2).symm
            · exact h2 hc2
          · intro e he hkey
            simp only [List.mem_cons] at he
            rcases he with rfl | he
            · exact absurd hkey hne
            · exact h3 e he hkey
        · simp only [processMonth, hpm, if_neg hlen]
          obtain ⟨h1, h2, h3⟩ := ih (nextMonthFirst cur) fs h
          refine ⟨h1, ?_, ?_⟩
          · rw [if_pos (by trivial)]
            intro hc
            rcases List.mem_append.mp hc with hc2 | hc2
            · exact hne (List.mem_singleton.mp hc2).symm
            · exact h2 hc2
          · intro e he hkey
            simp only [List.mem_cons] at he
            rcases he with rfl | he
            · exact absurd hkey hne
            · exact h3 e he hkey
    · rw [if_neg hle]
      exact ⟨h, by simp, by simp⟩

/-- Claim C2: if the persisted monthly file for `(y, m)` already exists,
the driver takes no network path for that month, the month's recorded
dataset is exactly the file's rows, and the file is left unchanged in
the final directory state. -/
theorem C2_existing_month_skipped (fetch : Nat → Nat → List Article)
    (startD endD : Date) (fs : FS Article) (y m : Nat) (rows : List Article)
    (h : fs (y, m) = some rows) :
    (y, m) ∉ (scrape_by_month fetch startD endD fs).fetchedMonths
  ∧ (scrape_by_month fetch startD endD fs).fs (y, m) = some rows
  ∧ ∀ e ∈ (scrape_by_month fetch startD endD fs).monthlyData,
      e.1 = (y, m) → e.2 = rows := by
  obtain ⟨h1, h2, h3⟩ := scrapeLoop_preserves fetch endD y m rows _ startD fs h
  exact ⟨h2, h1, h3⟩

/-- Witness for C2: a run over Jan-Feb 2020 with January already
persisted never fetches January, returns the file's single row for it,
and leaves the file intact. -/
theorem C2_existing_month_skipped_witness :
    (2020, 1) ∉ (scrape_by_month constFetch ⟨2020, 1, 1⟩ ⟨2020, 2, 28⟩ janFS).fetchedMonths
  ∧ (scrape_by_month constFetch ⟨2020, 1, 1⟩ ⟨2020, 2, 28⟩ janFS).fs (2020, 1) = some [artU1]
  ∧ ∀ e ∈ (scrape_by_month constFetch ⟨2020, 1, 1⟩ ⟨2020, 2, 28⟩ janFS).monthlyData,
      e.1 = (2020, 1) → e.2 = [artU1] :=
  C2_existing_month_skipped constFetch ⟨2020, 1, 1⟩ ⟨2020, 2, 28⟩ janFS 2020 1
    [artU1] (by decide)

/-! ### Calendar lemmas -/

theorem queryWindow_eq (y m : Nat) (h1 : 1 ≤ m) (h2 : m ≤ 12) :
    queryWindow y m = (⟨y, m, 1⟩, ⟨y, m, daysInMonth y m⟩) := by
  by_cases h12 : m = 12
  · subst h12
    simp [queryWindow, dateSubOneDay, daysInMonth]
  · rw [queryWindow, if_neg h12, dateSubOneDay]
    simp only [show ¬ (1:Nat) < 1 by omega, if_neg, if_pos (show 1 < m + 1 by omega),
      Nat.add_sub_cancel]
    simp

theorem idxToYM_monthIdx (y m : Nat) (h1 : 1 ≤ m) (h2 : m ≤ 12) :
    idxToYM (monthIdx y m) = (y, m) := by
  unfold idxToYM monthIdx
  rw [Prod.mk.injEq]
  omega

theorem idxToYM_injective : Function.Injective idxToYM := by
  intro a b h
  unfold idxToYM at h
  rw [Prod.mk.injEq] at h
  omega

theorem monthRangeList_cons (s e : Nat) (h : s ≤ e) :
    monthRangeList s e = idxToYM s :: monthRangeList (s + 1) e := by
  unfold monthRangeList
  rw [show e + 1 - s = (e - s) + 1 from by omega, List.range'_succ,
    show e + 1 - (s + 1) = e - s from by omega]
  simp

theorem monthRangeList_nil (s e : Nat) (h : e < s) : monthRangeList s e = [] := by
  unfold monthRangeList
  rw [show e + 1 - s = 0 from by omega]
  simp

theorem monthRangeList_nodup (s e : Nat) : (monthRangeList s e).Nodup := by
  unfold monthRangeList
  exact (List.nodup_range' _ _ _ (by omega)).map idxToYM_injective

theorem dateLe_day1_iff (y m ye me de : Nat) (h1 : 1 ≤ m) (h2 : m ≤ 12)
    (he1 : 1 ≤ me) (he2 : me ≤ 12) (hde : 1 ≤ de) :
    dateLe ⟨y, m, 1⟩ ⟨ye, me, de⟩ ↔ monthIdx y m ≤ monthIdx ye me := by
  unfold dateLe monthIdx
  simp only
  omega

theorem monthIdx_le_of_dateLe (a : Date) (ye me de : Nat)
    (ha1 : 1 ≤ a.m) (ha2 : a.m ≤ 12) (he1 : 1 ≤ me) (he2 : me ≤ 12)
    (h : dateLe a ⟨ye, me, de⟩) :
    monthIdx a.y a.m ≤ monthIdx ye me := by
  unfold dateLe at h
  unfold monthIdx
  simp only at h
  omega

theorem nextMonthFirst_shape (y m d : Nat) (h1 : 1 ≤ m) (h2 : m ≤ 12) :
    ∃ y2 m2, nextMonthFirst ⟨y, m, d⟩ = ⟨y2, m2, 1⟩ ∧ 1 ≤ m2 ∧ m2 ≤ 12 ∧
      monthIdx y2 m2 = monthIdx y m + 1 := by
  by_cases h : m = 12
  · subst h
    exact ⟨y + 1, 1, by simp [nextMonthFirst], by omega, by omega,
      by unfold monthIdx; omega⟩
  · exact ⟨y, m + 1, by simp [nextMonthFirst, h], by omega, by omega,
      by unfold monthIdx; omega⟩

theorem scrapeLoop_visited_day1 (fetch : Nat → Nat → List α)
    (ye me de : Nat) (hme1 : 1 ≤ me) (hme2 : me ≤ 12) (hde : 1 ≤ de) :
    ∀ (fuel y m : Nat) (fs : FS α), 1 ≤ m → m ≤ 12 →
      monthIdx ye me + 1 - monthIdx y m ≤ fuel →
      visitedMonths (scrapeLoop fetch ⟨ye, me, de⟩ fuel ⟨y, m, 1⟩ fs)
        = monthRangeList (monthIdx y m) (monthIdx ye me) := by
  intro fuel
  induction fuel with
  | zero =>
    intro y m fs hm1 hm2 hfuel
    rw [monthRangeList_nil _ _ (by omega)]
    simp [scrapeLoop, visitedMonths]
  | succ n ih =>
    intro y m fs hm1 hm2 hfuel
    by_cases hle : dateLe ⟨y, m, 1⟩ ⟨ye, me, de⟩
    · have hidx : monthIdx y m ≤ monthIdx ye me :=
        (dateLe_day1_iff y m ye me de hm1 hm2 hme1 hme2 hde).mp hle
      rw [scrapeLoop, if_pos hle]
      obtain ⟨y2, m2, hnext, hm21, hm22, hidx2⟩ :=
        nextMonthFirst_shape y m 1 hm1 hm2
      rw [monthRangeList_cons _ _ hidx, idxToYM_monthIdx y m hm1 hm2]
      simp only [visitedMonths, List.map_cons]
      rw [hnext]
      have h5 := ih y2 m2 ((processMonth fs fetch y m).2.1) hm21 hm22 (by omega)
      rw [visitedMonths] at h5
      rw [hidx2] at h5
      exact congrArg (List.cons (y, m)) h5
    · have hidx : ¬ monthIdx y m ≤ monthIdx ye me :=
        fun hc => hle ((dateLe_day1_iff y m ye me de hm1 hm2 hme1 hme2 hde).mpr hc)
      rw [scrapeLoop, if_neg hle, monthRangeList_nil _ _ (by omega)]
      simp [visitedMonths]

/-- Claim C6: the backfill driver visits every calendar month from the
start date's month to the end date's month inclusive, exactly once, in
calendar order (December wrapping to January), and for every visited
month the query window sent to the source spans the first through the
last day of that month, with leap-year February ending on the 29th
(`daysInMonth`). -/
theorem C6_backfill_months (fetch : Nat → Nat → List Article)
    (sy sm sd ye me de : Nat)
    (hsm1 : 1 ≤ sm) (hsm2 : sm ≤ 12)
    (hme1 : 1 ≤ me) (hme2 : me ≤ 12) (hde : 1 ≤ de)
    (fs : FS Article)
    (hse : dateLe ⟨sy, sm, sd⟩ ⟨ye, me, de⟩) :
    visitedMonths (scrape_by_month fetch ⟨sy, sm, sd⟩ ⟨ye, me, de⟩ fs)
      = monthRangeList (monthIdx sy sm) (monthIdx ye me)
  ∧ (visitedMonths (scrape_by_month fetch ⟨sy, sm, sd⟩ ⟨ye, me, de⟩ fs)).Nodup
  ∧ (∀ y m : Nat, 1 ≤ m → m ≤ 12 →
      queryWindow y m = (⟨y, m, 1⟩, ⟨y, m, daysInMonth y m⟩)) := by
  have hidx : monthIdx sy sm ≤ monthIdx ye me :=
    monthIdx_le_of_dateLe ⟨sy, sm, sd⟩ ye me de hsm1 hsm2 hme1 hme2 hse
  have hmain : visitedMonths (scrape_by_month fetch ⟨sy, sm, sd⟩ ⟨ye, me, de⟩ fs)
      = monthRangeList (monthIdx sy sm) (monthIdx ye me) := by
    rw [scrape_by_month]
    rw [show monthIdx ye me + 2 - monthIdx sy sm
        = (monthIdx ye me + 1 - monthIdx sy sm) + 1 from by omega]
    rw [scrapeLoop, if_pos hse]
    obtain ⟨y2, m2, hnext, hm21, hm22, hidx2⟩ :=
      nextMonthFirst_shape sy sm sd hsm1 hsm2
    rw [monthRangeList_cons _ _ hidx, idxToYM_monthIdx sy sm hsm1 hsm2]
    simp only [visitedMonths, List.map_cons]
    rw [hnext]
    have h5 := scrapeLoop_visited_day1 fetch ye me de hme1 hme2 hde
      (monthIdx ye me + 1 - monthIdx sy sm) y2 m2
      ((processMonth fs fetch sy sm).2.1) hm21 hm22 (by omega)
    rw [visitedMonths] at h5
    rw [hidx2] at h5
    exact congrArg (List.cons (sy, sm)) h5
  refine ⟨hmain, ?_, fun y m h1 h2 => queryWindow_eq y m h1 h2⟩
  rw [hmain]
  exact monthRangeList_nodup _ _

/-- Witness for C6: a Nov 2019 - Jan 2020 run visits exactly those three
months in order, and the February 2020 window ends on the 29th. -/
theorem C6_backfill_months_witness :
    visitedMonths (scrape_by_month emptyFetch ⟨2019, 11, 1⟩ ⟨2020, 1, 31⟩ emptyFS)
      = [(2019, 11), (2019, 12), (2020, 1)]
  ∧ queryWindow 2020 2 = (⟨2020, 2, 1⟩, ⟨2020, 2, 29⟩) := by
  obtain ⟨h1, h2, h3⟩ := C6_backfill_months emptyFetch 2019 11 1 2020 1 31
    (by decide) (by decide) (by decide) (by decide) (by decide) emptyFS (by decide)
  constructor
  · rw [h1]
    decide
  · rw [h3 2020 2 (by decide) (by decide)]
    decide

/-! ### Pagination lemmas -/

theorem requestedIdxs_cons_sleep (s : Nat) (evs : List Event) :
    requestedIdxs (Event.sleep s :: evs) = requestedIdxs evs := rfl

theorem requestedIdxs_cons_request (i : Nat) (evs : List Event) :
    requestedIdxs (Event.request i :: evs) = i :: requestedIdxs evs := rfl

theorem requestedIdxs_append (a b : List Event) :
    requestedIdxs (a ++ b) = requestedIdxs a ++ requestedIdxs b :=
  List.filterMap_append a b _

theorem nyt_paginate_spec (o : Nat → NYTHttp) :
    ∀ (fuel page : Nat), 0 < fuel →
      ∃ n, 1 ≤ n ∧ n ≤ fuel ∧
        requestedIdxs (NYT.paginate o fuel page).1 = List.range' page n ∧
        (∀ k, k + 1 < n → ¬ NYT.pageStop (o (page + k))) ∧
        (n = fuel ∨ NYT.pageStop (o (page + n - 1))) := by
  intro fuel
  induction fuel with
  | zero => intro page h; omega
  | succ f ih =>
    intro page hpos
    rcases hr : o page with _ | ⟨s, docs⟩
    · refine ⟨1, le_refl 1, by omega, ?_, fun k hk => absurd hk (by omega), ?_⟩
      · rw [NYT.paginate]
        simp [NYT.search_trump_covid_single, hr, requestedIdxs_cons_sleep,
          requestedIdxs_cons_request, List.range'_one, requestedIdxs]
      · right
        simp only [Nat.add_sub_cancel]
        rw [hr]
        trivial
    · by_cases h429 : s = 429
      · subst h429
        refine ⟨1, le_refl 1, by omega, ?_, fun k hk => absurd hk (by omega), ?_⟩
        · rw [NYT.paginate]
          simp [NYT.search_trump_covid_single, hr, List.range'_one, requestedIdxs]
        · right
          simp only [Nat.add_sub_cancel]
          rw [hr]
          simp [NYT.pageStop]
      · by_cases h200 : s = 200
        · subst h200
          by_cases hlen : docs.length < 10
          · refine ⟨1, le_refl 1, by omega, ?_, fun k hk => absurd hk (by omega), ?_⟩
            · rw [NYT.paginate]
              by_cases hzero : docs.length = 0
              · simp [NYT.search_trump_covid_single, hr, h429, NYT.parse_articles,
                  hzero, List.range'_one, requestedIdxs]
              · simp [NYT.search_trump_covid_single, hr, h429, NYT.parse_articles,
                  hzero, hlen, List.range'_one, requestedIdxs]
            · right
              simp only [Nat.add_sub_cancel]
              rw [hr]
              simp [NYT.pageStop, hlen]
          · rcases Nat.eq_zero_or_pos f with rfl | hf
            · refine ⟨1, le_refl 1, le_refl 1, ?_, fun k hk => absurd hk (by omega),
                Or.inl rfl⟩
              rw [NYT.paginate]
              simp [NYT.search_trump_covid_single, hr, h429, NYT.parse_articles,
                NYT.paginate, requestedIdxs_append, List.range'_one, requestedIdxs,
                show ¬ docs.length = 0 from by omega, hlen]
            · obtain ⟨n, hn1, hn2, hn3, hn4, hn5⟩ := ih (page + 1) hf
              refine ⟨n + 1, by omega, by omega, ?_, ?_, ?_⟩
              · rw [NYT.paginate]
                simp only [NYT.search_trump_covid_single, hr, if_neg h429,
                  if_pos rfl, if_true, eq_self_iff_true, NYT.parse_articles,
                  List.length_map,
                  if_neg (show ¬ docs.length = 0 from by omega), if_neg hlen]
                rw [requestedIdxs_append, hn3, List.range'_succ]
                rfl
              · intro k hk
                rcases Nat.eq_zero_or_pos k with rfl | hkpos
                · rw [Nat.add_zero, hr]
                  simp [NYT.pageStop, hlen]
                · have := hn4 (k - 1) (by omega)
                  rw [show page + 1 + (k - 1) = page + k from by omega] at this
                  exact this
              · rcases hn5 with h | h
                · exact Or.inl (by omega)
                · right
                  rw [show page + (n + 1) - 1 = page + 1 + n - 1 from by omega]
                  exact h
        · refine ⟨1, le_refl 1, by omega, ?_, fun k hk => absurd hk (by omega), ?_⟩
          · rw [NYT.paginate]
            simp [NYT.search_trump_covid_single, hr, h429, h200, List.range'_one,
              requestedIdxs]
          · right
            simp only [Nat.add_sub_cancel]
            rw [hr]
            simp [NYT.pageStop, h200]

theorem guardian_paginate_spec (o : Nat → GHttp) :
    ∀ (fuel page : Nat), 0 < fuel →
      ∃ n, 1 ≤ n ∧ n ≤ fuel ∧
        requestedIdxs (Guardian.paginate o fuel page).1 = List.range' page n ∧
        (∀ k, k + 1 < n → ¬ Guardian.pageStop (o (page + k))) ∧
        (n = fuel ∨ Guardian.pageStop (o (page + n - 1))) := by
  intro fuel
  induction fuel with
  | zero => intro page h; omega
  | succ f ih =>
    intro page hpos
    rcases hr : o page with _ | ⟨s, pages, cur, results⟩
    · refine ⟨1, le_refl 1, by omega, ?_, fun k hk => absurd hk (by omega), ?_⟩
      · rw [Guardian.paginate]
        simp [Guardian.search_trump_covid_single, hr, List.range'_one, requestedIdxs]
      · right
        simp only [Nat.add_sub_cancel]
        rw [hr]
        trivial
    · by_cases h429 : s = 429
      · subst h429
        refine ⟨1, le_refl 1, by omega, ?_, fun k hk => absurd hk (by omega), ?_⟩
        · rw [Guardian.paginate]
          simp [Guardian.search_trump_covid_single, hr, List.range'_one, requestedIdxs]
        · right
          simp only [Nat.add_sub_cancel]
          rw [hr]
          simp [Guardian.pageStop]
      · by_cases h200 : s = 200
        · subst h200
          by_cases hzero : results.length = 0
          · refine ⟨1, le_refl 1, by omega, ?_, fun k hk => absurd hk (by omega), ?_⟩
            · rw [Guardian.paginate]
              simp [Guardian.search_trump_covid_single, hr, h429,
                Guardian.parse_guardian_articles, hzero, List.range'_one, requestedIdxs]
            · right
              simp only [Nat.add_sub_cancel]
              rw [hr]
              simp [Guardian.pageStop, hzero]
          · by_cases hlast : pages ≤ cur
            · refine ⟨1, le_refl 1, by omega, ?_, fun k hk => absurd hk (by omega), ?_⟩
              · rw [Guardian.paginate]
                simp [Guardian.search_trump_covid_single, hr, h429,
                  Guardian.parse_guardian_articles, hzero, hlast, List.range'_one,
                  requestedIdxs]
              · right
                simp only [Nat.add_sub_cancel]
                rw [hr]
                simp [Guardian.pageStop, hlast]
            · rcases Nat.eq_zero_or_pos f with rfl | hf
              · refine ⟨1, le_refl 1, le_refl 1, ?_, fun k hk => absurd hk (by omega),
                  Or.inl rfl⟩
                rw [Guardian.paginate]
                simp [Guardian.search_trump_covid_single, hr, h429,
                  Guardian.parse_guardian_articles, hzero, hlast, Guardian.paginate,
                  requestedIdxs_append, List.range'_one, requestedIdxs]
              · obtain ⟨n, hn1, hn2, hn3, hn4, hn5⟩ := ih (page + 1) hf
                refine ⟨n + 1, by omega, by omega, ?_, ?_, ?_⟩
                · rw [Guardian.paginate]
                  simp only [Guardian.search_trump_covid_single, hr, if_neg h429,
                    if_pos rfl, if_true, eq_self_iff_true,
                    Guardian.parse_guardian_articles, List.length_map,
                    if_neg hzero, if_neg hlast]
                  rw [requestedIdxs_append, hn3, List.range'_succ]
                  rfl
                · intro k hk
                  rcases Nat.eq_zero_or_pos k with rfl | hkpos
                  · rw [Nat.add_zero, hr]
                    simp [Guardian.pageStop, hzero, hlast]
                  · have := hn4 (k - 1) (by omega)
                    rw [show page + 1 + (k - 1) = page + k from by omega] at this
                    exact this
                · rcases hn5 with h | h
                  · exact Or.inl (by omega)
                  · right
                    rw [show page + (n + 1) - 1 = page + 1 + n - 1 from by omega]
                    exact h
        · refine ⟨1, le_refl 1, by omega, ?_, fun k hk => absurd hk (by omega), ?_⟩
          · rw [Guardian.paginate]
            simp [Guardian.search_trump_covid_single, hr, h429, h200,
              List.range'_one, requestedIdxs]
          · right
            simp only [Nat.add_sub_cancel]
            rw [hr]
            simp [Guardian.pageStop, h200]

/-- Claim C4: for every month and any page oracle, the pagination pass
terminates after visiting a contiguous run of pages starting at the
initial page (1 for NYT — 14 further pages at most, so at most 15 NYT
pages per month counting the merge pass's page 0; 2 for Guardian — 19
further pages at most, so at most 20 Guardian pages counting the merge
pass's page 1), never going below the initial page; every non-final
visited page satisfied no stop condition, and the run ends exactly when
the ceiling is hit or the first stop condition fires (failed request /
empty parse — zero parsed documents; fewer than 10 rows for NYT;
`currentPage >= pages` metadata for Guardian). -/
theorem C4_pagination_terminates :
    (∀ o : Nat → NYTHttp, ∃ n, 1 ≤ n ∧ n ≤ 14 ∧
        requestedIdxs (NYT.paginate o 14 1).1 = List.range' 1 n ∧
        (∀ k, k + 1 < n → ¬ NYT.pageStop (o (1 + k))) ∧
        (n = 14 ∨ NYT.pageStop (o (1 + n - 1))) ∧
        ∀ p ∈ requestedIdxs (NYT.paginate o 14 1).1, 1 ≤ p)
  ∧ (∀ g : Nat → GHttp, ∃ n, 1 ≤ n ∧ n ≤ 19 ∧
        requestedIdxs (Guardian.paginate g 19 2).1 = List.range' 2 n ∧
        (∀ k, k + 1 < n → ¬ Guardian.pageStop (g (2 + k))) ∧
        (n = 19 ∨ Guardian.pageStop (g (2 + n - 1))) ∧
        ∀ p ∈ requestedIdxs (Guardian.paginate g 19 2).1, 2 ≤ p) := by
  constructor
  · intro o
    obtain ⟨n, h1, h2, h3, h4, h5⟩ := nyt_paginate_spec o 14 1 (by omega)
    refine ⟨n, h1, h2, h3, h4, h5, ?_⟩
    rw [h3]
    intro p hp
    exact (List.mem_range'_1.mp hp).1
  · intro g
    obtain ⟨n, h1, h2, h3, h4, h5⟩ := guardian_paginate_spec g 19 2 (by omega)
    refine ⟨n, h1, h2, h3, h4, h5, ?_⟩
    rw [h3]
    intro p hp
    exact (List.mem_range'_1.mp hp).1

/-- Witness instantiating C4 at concrete oracles. -/
theorem C4_pagination_terminates_witness :
    (∃ n, 1 ≤ n ∧ n ≤ 14 ∧
        requestedIdxs (NYT.paginate nytTwoPageOracle 14 1).1 = List.range' 1 n ∧
        (∀ k, k + 1 < n → ¬ NYT.pageStop (nytTwoPageOracle (1 + k))) ∧
        (n = 14 ∨ NYT.pageStop (nytTwoPageOracle (1 + n - 1))) ∧
        ∀ p ∈ requestedIdxs (NYT.paginate nytTwoPageOracle 14 1).1, 1 ≤ p)
  ∧ (∃ n, 1 ≤ n ∧ n ≤ 19 ∧
        requestedIdxs (Guardian.paginate gAllFailOracle 19 2).1 = List.range' 2 n ∧
        (∀ k, k + 1 < n → ¬ Guardian.pageStop (gAllFailOracle (2 + k))) ∧
        (n = 19 ∨ Guardian.pageStop (gAllFailOracle (2 + n - 1))) ∧
        ∀ p ∈ requestedIdxs (Guardian.paginate gAllFailOracle 19 2).1, 2 ≤ p) :=
  ⟨C4_pagination_terminates.1 nytTwoPageOracle,
   C4_pagination_terminates.2 gAllFailOracle⟩

/-! ### Merge-pass event-trace lemmas -/

theorem nyt_queryEvents_requested (o : Nat → NYTHttp) (i : Nat) :
    requestedIdxs (NYT.queryEvents o i) = [i] := by
  rw [NYT.queryEvents, requestedIdxs_append, requestedIdxs_append]
  have h1 : requestedIdxs (if 0 < i then [Event.sleep 2] else []) = [] := by
    by_cases hi : 0 < i <;> simp [hi, requestedIdxs]
  have h3 : requestedIdxs (match o i with
      | NYTHttp.exn => []
      | NYTHttp.resp s _ => if s = 429 then [Event.sleep 60] else []) = [] := by
    rcases o i with _ | ⟨s, docs⟩
    · rfl
    · by_cases hs : s = 429 <;> simp [hs, requestedIdxs]
  rw [h1, h3]
  rfl

theorem guardian_queryEvents_requested (o : Nat → GHttp) (i : Nat) :
    requestedIdxs (Guardian.queryEvents o i) = [i] := by
  rw [Guardian.queryEvents, requestedIdxs_append, requestedIdxs_append]
  have h1 : requestedIdxs (if 0 < i then [Event.sleep 1] else []) = [] := by
    by_cases hi : 0 < i <;> simp [hi, requestedIdxs]
  have h3 : requestedIdxs (match o i with
      | GHttp.exn => []
      | GHttp.resp s _ _ _ => if s = 429 then [Event.sleep 10] else []) = [] := by
    rcases o i with _ | ⟨s, p, c, r⟩
    · rfl
    · by_cases hs : s = 429 <;> simp [hs, requestedIdxs]
  rw [h1, h3]
  rfl

theorem nyt_compEvents_requested (o : Nat → NYTHttp) :
    requestedIdxs (NYT.compEvents o) = [0, 1, 2, 3, 4] := by
  rw [NYT.compEvents, show List.range 5 = [0, 1, 2, 3, 4] from rfl]
  simp [requestedIdxs_append, nyt_queryEvents_requested]

theorem guardian_compEvents_requested (o : Nat → GHttp) :
    requestedIdxs (Guardian.compEvents o) = [0, 1, 2, 3, 4] := by
  rw [Guardian.compEvents, show List.range 5 = [0, 1, 2, 3, 4] from rfl]
  simp [requestedIdxs_append, guardian_queryEvents_requested]

theorem nyt_queryEvents_429 (o : Nat → NYTHttp) (i : Nat) (docs : List RawDoc)
    (h : o i = NYTHttp.resp 429 docs) :
    NYT.queryEvents o i
      = (if 0 < i then [Event.sleep 2] else []) ++ (Event.request i :: Event.sleep 60 :: []) := by
  rw [NYT.queryEvents, h]
  simp

theorem guardian_queryEvents_429 (o : Nat → GHttp) (i : Nat)
    (pg cur : Nat) (res : List GRawDoc) (h : o i = GHttp.resp 429 pg cur res) :
    Guardian.queryEvents o i
      = (if 0 < i then [Event.sleep 1] else []) ++ (Event.request i :: Event.sleep 10 :: []) := by
  rw [Guardian.queryEvents, h]
  simp

theorem nyt_compEvents_adj_429 (o : Nat → NYTHttp) (i : Nat) (docs : List RawDoc)
    (hi : i < 5) (h : o i = NYTHttp.resp 429 docs) :
    ∃ l r, NYT.compEvents o = l ++ (Event.request i :: Event.sleep 60 :: r) := by
  have hq := nyt_queryEvents_429 o i docs h
  have hev : NYT.compEvents o
      = NYT.queryEvents o 0 ++ (NYT.queryEvents o 1 ++ (NYT.queryEvents o 2
          ++ (NYT.queryEvents o 3 ++ NYT.queryEvents o 4))) := by
    rw [NYT.compEvents, show List.range 5 = [0, 1, 2, 3, 4] from rfl]
    simp
  interval_cases i
  · rw [hev, hq]
    exact ⟨[], NYT.queryEvents o 1 ++ (NYT.queryEvents o 2
      ++ (NYT.queryEvents o 3 ++ NYT.queryEvents o 4)), by simp⟩
  · rw [hev, hq]
    exact ⟨NYT.queryEvents o 0 ++ [Event.sleep 2], NYT.queryEvents o 2
      ++ (NYT.queryEvents o 3 ++ NYT.queryEvents o 4), by simp⟩
  · rw [hev, hq]
    exact ⟨NYT.queryEvents o 0 ++ NYT.queryEvents o 1 ++ [Event.sleep 2],
      NYT.queryEvents o 3 ++ NYT.queryEvents o 4, by simp⟩
  · rw [hev, hq]
    exact ⟨NYT.queryEvents o 0 ++ NYT.queryEvents o 1 ++ NYT.queryEvents o 2
      ++ [Event.sleep 2], NYT.queryEvents o 4, by simp⟩
  · rw [hev, hq]
    exact ⟨NYT.queryEvents o 0 ++ NYT.queryEvents o 1 ++ NYT.queryEvents o 2
      ++ NYT.queryEvents o 3 ++ [Event.sleep 2], [], by simp⟩

theorem guardian_compEvents_adj_429 (o : Nat → GHttp) (i : Nat)
    (pg cur : Nat) (res : List GRawDoc)
    (hi : i < 5) (h : o i = GHttp.resp 429 pg cur res) :
    ∃ l r, Guardian.compEvents o = l ++ (Event.request i :: Event.sleep 10 :: r) := by
  have hq := guardian_queryEvents_429 o i pg cur res h
  have hev : Guardian.compEvents o
      = Guardian.queryEvents o 0 ++ (Guardian.queryEvents o 1 ++ (Guardian.queryEvents o 2
          ++ (Guardian.queryEvents o 3 ++ Guardian.queryEvents o 4))) := by
    rw [Guardian.compEvents, show List.range 5 = [0, 1, 2, 3, 4] from rfl]
    simp
  interval_cases i
  · rw [hev, hq]
    exact ⟨[], Guardian.queryEvents o 1 ++ (Guardian.queryEvents o 2
      ++ (Guardian.queryEvents o 3 ++ Guardian.queryEvents o 4)), by simp⟩
  · rw [hev, hq]
    exact ⟨Guardian.queryEvents o 0 ++ [Event.sleep 1], Guardian.queryEvents o 2
      ++ (Guardian.queryEvents o 3 ++ Guardian.queryEvents o 4), by simp⟩
  · rw [hev, hq]
    exact ⟨Guardian.queryEvents o 0 ++ Guardian.queryEvents o 1 ++ [Event.sleep 1],
      Guardian.queryEvents o 3 ++ Guardian.queryEvents o 4, by simp⟩
  · rw [hev, hq]
    exact ⟨Guardian.queryEvents o 0 ++ Guardian.queryEvents o 1 ++ Guardian.queryEvents o 2
      ++ [Event.sleep 1], Guardian.queryEvents o 4, by simp⟩
  · rw [hev, hq]
    exact ⟨Guardian.queryEvents o 0 ++ Guardian.queryEvents o 1 ++ Guardian.queryEvents o 2
      ++ Guardian.queryEvents o 3 ++ [Event.sleep 1], [], by simp⟩

/-! ### Claim theorems: rate limiting -/

/-- Counterexample to C5 as stated: with page 1 rate limited (HTTP 429)
and all later pages available with 12 results each, the pagination pass
sleeps the 60s cooldown but then ends the month's pagination — the
remaining pages are never attempted (page 2 is never requested), so a
rate-limited call does terminate the month's page loop. -/
theorem C5_counterexample :
    Event.sleep 60 ∈ (NYT.paginate rateLimitedPageOracle 14 1).1
  ∧ requestedIdxs (NYT.paginate rateLimitedPageOracle 14 1).1 = [1]
  ∧ Event.request 2 ∉ (NYT.paginate rateLimitedPageOracle 14 1).1 := by
  refine ⟨by decide, by decide, by decide⟩

/-- Claim C5 as amended: on HTTP 429 the caller always sleeps the
source-defined cooldown (60s NYT, 10s Guardian) immediately after the
rate-limited request and before any further request; in the multi-query
merge pass the remaining queries are still attempted (all five queries
are always requested); in the pagination pass the single fetch returns
`None` after the cooldown and the caller breaks, ending that month's
pagination with the pages already collected (no exception, not a
terminal failure of the month). -/
theorem C5_rate_limit_amended :
    (∀ (o : Nat → NYTHttp), requestedIdxs (NYT.compEvents o) = [0, 1, 2, 3, 4])
  ∧ (∀ (o : Nat → NYTHttp) (i : Nat) (docs : List RawDoc), i < 5 →
      o i = NYTHttp.resp 429 docs →
      ∃ l r, NYT.compEvents o = l ++ (Event.request i :: Event.sleep 60 :: r))
  ∧ (∀ (g : Nat → GHttp), requestedIdxs (Guardian.compEvents g) = [0, 1, 2, 3, 4])
  ∧ (∀ (g : Nat → GHttp) (i pg cur : Nat) (res : List GRawDoc), i < 5 →
      g i = GHttp.resp 429 pg cur res →
      ∃ l r, Guardian.compEvents g = l ++ (Event.request i :: Event.sleep 10 :: r))
  ∧ (∀ (o : Nat → NYTHttp) (page : Nat) (docs : List RawDoc),
      o page = NYTHttp.resp 429 docs →
      NYT.search_trump_covid_single o page
        = ([Event.request page, Event.sleep 60], none))
  ∧ (∀ (g : Nat → GHttp) (page pg cur : Nat) (res : List GRawDoc),
      g page = GHttp.resp 429 pg cur res →
      Guardian.search_trump_covid_single g page
        = ([Event.request page, Event.sleep 10], none))
  ∧ (∀ (o : Nat → NYTHttp) (fuel page : Nat) (docs : List RawDoc),
      o page = NYTHttp.resp 429 docs →
      NYT.paginate o (fuel + 1) page
        = ([Event.sleep 7, Event.request page, Event.sleep 60], []))
  ∧ (∀ (g : Nat → GHttp) (fuel page pg cur : Nat) (res : List GRawDoc),
      g page = GHttp.resp 429 pg cur res →
      Guardian.paginate g (fuel + 1) page
        = ([Event.sleep 1, Event.request page, Event.sleep 10], [])) := by
  refine ⟨nyt_compEvents_requested, nyt_compEvents_adj_429,
    guardian_compEvents_requested, guardian_compEvents_adj_429, ?_, ?_, ?_, ?_⟩
  · intro o page docs h
    rw [NYT.search_trump_covid_single, h]
    simp
  · intro g page pg cur res h
    rw [Guardian.search_trump_covid_single, h]
    simp
  · intro o fuel page docs h
    rw [NYT.paginate]
    rw [NYT.search_trump_covid_single, h]
    simp
  · intro g fuel page pg cur res h
    rw [Guardian.paginate]
    rw [Guardian.search_trump_covid_single, h]
    simp

/-- Witness for the amended C5 at the all-429 oracles. -/
theorem C5_rate_limit_amended_witness :
    requestedIdxs (NYT.compEvents all429Oracle) = [0, 1, 2, 3, 4]
  ∧ (∃ l r, NYT.compEvents all429Oracle
      = l ++ (Event.request 2 :: Event.sleep 60 :: r))
  ∧ NYT.search_trump_covid_single all429Oracle 1
      = ([Event.request 1, Event.sleep 60], none)
  ∧ Guardian.search_trump_covid_single gAll429Oracle 2
      = ([Event.request 2, Event.sleep 10], none)
  ∧ NYT.paginate all429Oracle 14 1
      = ([Event.sleep 7, Event.request 1, Event.sleep 60], [])
  ∧ Guardian.paginate gAll429Oracle 19 2
      = ([Event.sleep 1, Event.request 2, Event.sleep 10], []) :=
  ⟨C5_rate_limit_amended.1 all429Oracle,
   C5_rate_limit_amended.2.1 all429Oracle 2 [] (by decide) (by decide),
   C5_rate_limit_amended.2.2.2.2.1 all429Oracle 1 [] (by decide),
   C5_rate_limit_amended.2.2.2.2.2.1 gAll429Oracle 2 0 0 [] (by decide),
   C5_rate_limit_amended.2.2.2.2.2.2.1 all429Oracle 13 1 [] (by decide),
   C5_rate_limit_amended.2.2.2.2.2.2.2 gAll429Oracle 18 2 0 0 [] (by decide)⟩

/-! ### Claim theorems: request failures -/

/-- Counterexample to C7 as stated: with page 1 failing with HTTP 500
and all later pages available, the pagination pass ends at page 1 — the
remaining pages of the month are never attempted (page 2 is never
requested), so the orchestration does not continue with the remaining
pages after a failed request. -/
theorem C7_counterexample :
    requestedIdxs (NYT.paginate failedPageOracle 14 1).1 = [1]
  ∧ Event.request 2 ∉ (NYT.paginate failedPageOracle 14 1).1
  ∧ (NYT.paginate failedPageOracle 14 1).2 = [] := by
  refine ⟨by decide, by decide, by decide⟩

theorem nyt_compMerged_mem (o : Nat → NYTHttp) :
    ∀ d ∈ NYT.compMerged o,
      ∃ i, i < 5 ∧ ∃ docs, o i = NYTHttp.resp 200 docs ∧ d ∈ docs := by
  suffices h : ∀ (is : List Nat) (st : List RawDoc × List String),
      ∀ d ∈ (is.foldl (NYT.mergeStep o) st).1,
        d ∈ st.1 ∨ ∃ i ∈ is, ∃ docs, o i = NYTHttp.resp 200 docs ∧ d ∈ docs by
    intro d hd
    rcases h (List.range 5) ([], []) d hd with h2 | ⟨i, hi, docs, h3, h4⟩
    · simp at h2
    · exact ⟨i, List.mem_range.mp hi, docs, h3, h4⟩
  intro is
  induction is with
  | nil =>
    intro st d hd
    exact Or.inl (by simpa using hd)
  | cons i is ih =>
    intro st d hd
    rw [List.foldl_cons] at hd
    rcases ih (NYT.mergeStep o st i) d hd with h2 | ⟨j, hj, docs, h3, h4⟩
    · rcases hr : o i with _ | ⟨s, docs⟩
      · rw [NYT.mergeStep, hr] at h2
        exact Or.inl h2
      · simp only [NYT.mergeStep, hr] at h2
        by_cases hs : s = 200
        · rw [if_pos hs] at h2
          rcases appendSeen_mem (fun d => d.web_url) docs st.1 st.2 d h2 with h5 | h5
          · exact Or.inl h5
          · exact Or.inr ⟨i, by simp, docs, by rw [hr, hs], h5⟩
        · rw [if_neg hs] at h2
          exact Or.inl h2
    · exact Or.inr ⟨j, List.mem_cons_of_mem _ hj, docs, h3, h4⟩

theorem guardian_compMerged_mem (o : Nat → GHttp) :
    ∀ a ∈ Guardian.compMerged o,
      ∃ i, i < 5 ∧ ∃ pg cur res, o i = GHttp.resp 200 pg cur res ∧ a ∈ res := by
  suffices h : ∀ (is : List Nat) (st : List GRawDoc × List String),
      ∀ a ∈ (is.foldl (Guardian.mergeStep o) st).1,
        a ∈ st.1 ∨ ∃ i ∈ is, ∃ pg cur res, o i = GHttp.resp 200 pg cur res ∧ a ∈ res by
    intro a ha
    rcases h (List.range 5) ([], []) a ha with h2 | ⟨i, hi, pg, cur, res, h3, h4⟩
    · simp at h2
    · exact ⟨i, List.mem_range.mp hi, pg, cur, res, h3, h4⟩
  intro is
  induction is with
  | nil =>
    intro st a ha
    exact Or.inl (by simpa using ha)
  | cons i is ih =>
    intro st a ha
    rw [List.foldl_cons] at ha
    rcases ih (Guardian.mergeStep o st i) a ha with h2 | ⟨j, hj, pg, cur, res, h3, h4⟩
    · rcases hr : o i with _ | ⟨s, pg, cur, res⟩
      · rw [Guardian.mergeStep, hr] at h2
        exact Or.inl h2
      · simp only [Guardian.mergeStep, hr] at h2
        by_cases hs : s = 200
        · rw [if_pos hs] at h2
          rcases appendSeen_mem (fun a => a.id) res st.1 st.2 a h2 with h5 | h5
          · exact Or.inl h5
          · exact Or.inr ⟨i, by simp, pg, cur, res, by rw [hr, hs], h5⟩
        · rw [if_neg hs] at h2
          exact Or.inl h2
    · exact Or.inr ⟨j, List.mem_cons_of_mem _ hj, pg, cur, res, h3, h4⟩

theorem scrapeLoop_visited_indep (fetch fetch' : Nat → Nat → List Article)
    (endD : Date) :
    ∀ (fuel : Nat) (cur : Date) (fs fs' : FS Article),
      visitedMonths (scrapeLoop fetch endD fuel cur fs)
        = visitedMonths (scrapeLoop fetch' endD fuel cur fs') := by
  intro fuel
  induction fuel with
  | zero => intro cur fs fs'; rfl
  | succ n ih =>
    intro cur fs fs'
    rw [scrapeLoop, scrapeLoop]
    by_cases hle : dateLe cur endD
    · rw [if_pos hle, if_pos hle]
      simp only [visitedMonths, List.map_cons]
      refine congrArg (List.cons _) ?_
      have h5 := ih (nextMonthFirst cur) ((processMonth fs fetch cur.y cur.m).2.1)
        ((processMonth fs' fetch' cur.y cur.m).2.1)
      rw [visitedMonths, visitedMonths] at h5
      exact h5
    · rw [if_neg hle, if_neg hle]
      rfl

/-- Claim C7 as amended: a non-200 non-429 response or a transport
exception yields no data and no exception crosses the fetch boundary
(the fetch functions are total and return `None`); every document in the
merged multi-query result comes from an HTTP 200 response, and all five
queries are always requested; the month iteration of the backfill driver
is independent of all fetch outcomes, so no request failure aborts the
remaining months — but a failed page ends that month's pagination pass
(see the counterexample). -/
theorem C7_failures_contained_amended :
    (∀ (o : Nat → NYTHttp) (page : Nat),
        (∀ s docs, o page = NYTHttp.resp s docs → s ≠ 200) →
        (NYT.search_trump_covid_single o page).2 = none)
  ∧ (∀ (g : Nat → GHttp) (page : Nat),
        (∀ s pg cur res, g page = GHttp.resp s pg cur res → s ≠ 200) →
        (Guardian.search_trump_covid_single g page).2 = none)
  ∧ (∀ (o : Nat → NYTHttp), requestedIdxs (NYT.compEvents o) = [0, 1, 2, 3, 4]
      ∧ ∀ d ∈ NYT.compMerged o,
          ∃ i, i < 5 ∧ ∃ docs, o i = NYTHttp.resp 200 docs ∧ d ∈ docs)
  ∧ (∀ (g : Nat → GHttp), requestedIdxs (Guardian.compEvents g) = [0, 1, 2, 3, 4]
      ∧ ∀ a ∈ Guardian.compMerged g,
          ∃ i, i < 5 ∧ ∃ pg cur res, g i = GHttp.resp 200 pg cur res ∧ a ∈ res)
  ∧ (∀ (fetch fetch' : Nat → Nat → List Article) (startD endD : Date)
        (fs fs' : FS Article),
        visitedMonths (scrape_by_month fetch startD endD fs)
          = visitedMonths (scrape_by_month fetch' startD endD fs')) := by
  refine ⟨?_, ?_, fun o => ⟨nyt_compEvents_requested o, nyt_compMerged_mem o⟩,
    fun g => ⟨guardian_compEvents_requested g, guardian_compMerged_mem g⟩, ?_⟩
  · intro o page h
    rcases hr : o page with _ | ⟨s, docs⟩
    · rw [NYT.search_trump_covid_single, hr]
    · have hs : s ≠ 200 := h s docs hr
      simp only [NYT.search_trump_covid_single, hr]
      by_cases h429 : s = 429
      · rw [if_pos h429]
      · rw [if_neg h429, if_neg hs]
  · intro g page h
    rcases hr : g page with _ | ⟨s, pg, cur, res⟩
    · rw [Guardian.search_trump_covid_single, hr]
    · have hs : s ≠ 200 := h s pg cur res hr
      simp only [Guardian.search_trump_covid_single, hr]
      by_cases h429 : s = 429
      · rw [if_pos h429]
      · rw [if_neg h429, if_neg hs]
  · intro fetch fetch' startD endD fs fs'
    rw [scrape_by_month, scrape_by_month]
    exact scrapeLoop_visited_indep fetch fetch' endD _ startD fs fs'

/-- Witness for the amended C7 at concrete inputs. -/
theorem C7_failures_contained_amended_witness :
    (NYT.search_trump_covid_single allFailOracle 3).2 = none
  ∧ (Guardian.search_trump_covid_single gAllFailOracle 3).2 = none
  ∧ visitedMonths (scrape_by_month constFetch ⟨2020, 1, 1⟩ ⟨2020, 2, 28⟩ emptyFS)
      = visitedMonths (scrape_by_month emptyFetch ⟨2020, 1, 1⟩ ⟨2020, 2, 28⟩ janFS) :=
  ⟨C7_failures_contained_amended.1 allFailOracle 3
      (fun s docs h => by
        simp only [allFailOracle, NYTHttp.resp.injEq] at h
        omega),
   C7_failures_contained_amended.2.1 gAllFailOracle 3
      (fun s pg cur res h => by simp [gAllFailOracle] at h),
   C7_failures_contained_amended.2.2.2.2 constFetch emptyFetch
      ⟨2020, 1, 1⟩ ⟨2020, 2, 28⟩ emptyFS janFS⟩

/-! ### Claim theorems: identity-key invariant -/

/-- Counterexample to C8 as stated: a document with no `web_url` field
arriving through the pagination pass is normalized by `parse_articles`
with `web_url = ''` and survives `drop_duplicates`, so the monthly
dataset retains an article whose identity-key field is empty. -/
theorem C8_counterexample :
    (NYT.get_all_articles_for_month allExnOracle noUrlPageOracle).2.map
        (fun a => a.web_url) = [defaultStr]
  ∧ defaultStr = "" := by
  refine ⟨by decide, rfl⟩

theorem nyt_compMerged_truthy (o : Nat → NYTHttp) :
    ∀ d ∈ NYT.compMerged o, truthy d.web_url = true := by
  suffices h : ∀ (is : List Nat) (st : List RawDoc × List String),
      (∀ d ∈ st.1, truthy d.web_url = true) →
      ∀ d ∈ (is.foldl (NYT.mergeStep o) st).1, truthy d.web_url = true by
    intro d hd
    exact h (List.range 5) ([], []) (by simp) d hd
  intro is
  induction is with
  | nil =>
    intro st hst d hd
    exact hst d (by simpa using hd)
  | cons i is ih =>
    intro st hst d hd
    rw [List.foldl_cons] at hd
    refine ih (NYT.mergeStep o st i) ?_ d hd
    intro e he
    rcases hr : o i with _ | ⟨s, docs⟩
    · rw [NYT.mergeStep, hr] at he
      exact hst e he
    · simp only [NYT.mergeStep, hr] at he
      by_cases hs : s = 200
      · rw [if_pos hs] at he
        exact appendSeen_truthy (fun d => d.web_url) docs st.1 st.2 hst e he
      · rw [if_neg hs] at he
        exact hst e he

theorem guardian_compMerged_truthy (o : Nat → GHttp) :
    ∀ a ∈ Guardian.compMerged o, truthy a.id = true := by
  suffices h : ∀ (is : List Nat) (st : List GRawDoc × List String),
      (∀ a ∈ st.1, truthy a.id = true) →
      ∀ a ∈ (is.foldl (Guardian.mergeStep o) st).1, truthy a.id = true by
    intro a ha
    exact h (List.range 5) ([], []) (by simp) a ha
  intro is
  induction is with
  | nil =>
    intro st hst a ha
    exact hst a (by simpa using ha)
  | cons i is ih =>
    intro st hst a ha
    rw [List.foldl_cons] at ha
    refine ih (Guardian.mergeStep o st i) ?_ a ha
    intro e he
    rcases hr : o i with _ | ⟨s, pg, cur, res⟩
    · rw [Guardian.mergeStep, hr] at he
      exact hst e he
    · simp only [Guardian.mergeStep, hr] at he
      by_cases hs : s = 200
      · rw [if_pos hs] at he
        exact appendSeen_truthy (fun a => a.id) res st.1 st.2 hst e he
      · rw [if_neg hs] at he
        exact hst e he

/-- Claim C8 as amended: every document retained by the multi-query
merge pass carries a truthy (present, non-empty) identity key, for both
sources; however the pagination pass normalizes a missing key to the
empty string and deduplication retains such rows, so a Monthly or
Combined Dataset can contain an article with an empty identity-key
field (see the counterexample). -/
theorem C8_identity_key_amended :
    (∀ (o : Nat → NYTHttp) (docs : List RawDoc),
        NYT.search_trump_covid_comprehensive o = some docs →
        ∀ d ∈ docs, truthy d.web_url = true)
  ∧ (∀ (g : Nat → GHttp) (res : List GRawDoc),
        Guardian.search_trump_covid_comprehensive g = some res →
        ∀ a ∈ res, truthy a.id = true) := by
  constructor
  · intro o docs h d hd
    rw [NYT.search_trump_covid_comprehensive] at h
    by_cases hc : NYT.compMerged o = []
    · rw [if_pos hc] at h
      exact Option.noConfusion h
    · rw [if_neg hc] at h
      have hdocs := Option.some.inj h
      rw [← hdocs] at hd
      exact nyt_compMerged_truthy o d hd
  · intro g res h a ha
    rw [Guardian.search_trump_covid_comprehensive] at h
    by_cases hc : Guardian.compMerged g = []
    · rw [if_pos hc] at h
      exact Option.noConfusion h
    · rw [if_neg hc] at h
      have hres := Option.some.inj h
      rw [← hres] at ha
      exact guardian_compMerged_truthy g a ha

/-- Witness for the amended C8: the one-document oracles yield merged
documents whose keys are truthy. -/
theorem C8_identity_key_amended_witness :
    truthy oneDoc.web_url = true ∧ truthy gOneDoc.id = true :=
  ⟨C8_identity_key_amended.1 oneDocOracle [oneDoc] (by decide) oneDoc (by decide),
   C8_identity_key_amended.2 gOneDocOracle [gOneDoc] (by decide) gOneDoc (by decide)⟩

/-! ### Claim theorems: empty merge result -/

/-- Claim C10: the multi-query merge returns `None` exactly when its
accumulated document list is empty, whether every request failed or
every query legitimately returned zero documents — the two situations
produce the same value at this interface, so the caller cannot
distinguish an empty success from total request failure. -/
theorem C10_merge_none_iff_empty :
    (∀ o : Nat → NYTHttp,
        NYT.search_trump_covid_comprehensive o = none ↔ NYT.compMerged o = [])
  ∧ NYT.search_trump_covid_comprehensive allFailOracle = none
  ∧ NYT.search_trump_covid_comprehensive allExnOracle = none
  ∧ NYT.search_trump_covid_comprehensive allEmptyOracle = none
  ∧ (∀ g : Nat → GHttp,
        Guardian.search_trump_covid_comprehensive g = none
          ↔ Guardian.compMerged g = [])
  ∧ Guardian.search_trump_covid_comprehensive gAllFailOracle = none
  ∧ Guardian.search_trump_covid_comprehensive gAllEmptyOracle = none := by
  refine ⟨?_, by decide, by decide, by decide, ?_, by decide, by decide⟩
  · intro o
    rw [NYT.search_trump_covid_comprehensive]
    by_cases hc : NYT.compMerged o = []
    · simp [hc]
    · simp [hc]
  · intro g
    rw [Guardian.search_trump_covid_comprehensive]
    by_cases hc : Guardian.compMerged g = []
    · simp [hc]
    · simp [hc]
